import Mathlib

/-!
# Package `errors` (m3tam3re/errors): construction and rendering of error records

A shallow embedding of `errors.go`.

* Go strings are Lean `String`s, `bytes.Buffer` is the `String` written so far.
* `*Error` pointers are addresses into an explicit heap of records (`Heap`), so that
  copy-on-wrap and later mutation of a wrapped record can be stated.  A pointer is
  `Option Addr`: `none` is the nil pointer.
* A value of the Go interface `error` is `nil`, a `*Error` pointer, or a foreign error.
  A foreign error is either one whose own `Error()` method returns a text and changes no
  record (`error.foreign text`), or one whose `Error()` method panics
  (`error.foreignPanic`), as the method of a nil pointer of a foreign type does when it
  reads its receiver.
* A value of `interface{}` passed to `E` is an `Arg`; a value whose dynamic type is none
  of the seven types of the type switch (the untyped `nil` included) carries the two
  texts `%T` and `%v` print for it.
* The recursion of `(*Error).Error` through the wrapped cause follows pointers in the
  heap; it is bounded by a fuel argument, one unit per `*Error` pointer followed.
* `Error.ErrorSt` is the same method in state-passing form, returning the heap the call
  leaves; `ErrorSt_eq` relates the two forms.
* The `log.Printf` diagnostic of the `default` branch of `E` is an output side effect
  and is not part of the model.
-/

set_option linter.dupNamespace false

namespace errors

/-! ## Data model -/

abbrev Path := String

abbrev Op := String

/-- `type Kind uint8`: the values are the naturals below 256. -/
abbrev Kind := Nat

abbrev Ref := String

/-- Address of a record in the heap. -/
abbrev Addr := Nat

/-- A value of the Go interface `error`: nil, a `*Error` pointer, a foreign error whose
own `Error()` returns `text`, or a foreign error whose own `Error()` panics. -/
inductive error where
  | nil
  | record (p : Option Addr)
  | foreign (text : String)
  | foreignPanic
  deriving DecidableEq, Repr

/-- The struct `Error`; the defaults are Go's zero values. -/
structure Error where
  Path : Path := ""
  Op : Op := ""
  Kind : Kind := 0
  Msg : String := ""
  Ref : Ref := ""
  Err : error := error.nil
  deriving DecidableEq, Repr

/-- The records allocated so far; the address of a record is its index. -/
abbrev Heap := List Error

/-- Dereference of a `*Error` pointer: `none` when the pointer is nil (or not allocated). -/
def deref (h : Heap) (p : Option Addr) : Option Error :=
  p.bind (fun a => h[a]?)

abbrev Kind.Other : Kind := 0
abbrev Kind.Invalid : Kind := 1
abbrev Kind.Permission : Kind := 2
abbrev Kind.IO : Kind := 3
abbrev Kind.Exists : Kind := 4
abbrev Kind.NotExist : Kind := 5
abbrev Kind.IsDir : Kind := 6
abbrev Kind.NotDir : Kind := 7
abbrev Kind.NotEmpty : Kind := 8
abbrev Kind.Private : Kind := 9
abbrev Kind.Internal : Kind := 10
abbrev Kind.BrokenLink : Kind := 11

/-- The method `func (k Kind) String() string`. -/
def Kind.String (k : Kind) : String :=
  if k = Kind.Other then "unknown error"
  else if k = Kind.Invalid then "invalid operation"
  else if k = Kind.Permission then "permission denied"
  else if k = Kind.IO then "I/O error"
  else if k = Kind.Exists then "item already exists"
  else if k = Kind.NotExist then "item does not exist"
  else if k = Kind.IsDir then "item is a directoy"
  else if k = Kind.NotDir then "item is not a directory"
  else if k = Kind.NotEmpty then "directory is not empty"
  else if k = Kind.Private then "requested item is private"
  else if k = Kind.Internal then "internal error"
  else if k = Kind.BrokenLink then "link target could not be found"
  else "unknown error kind"

/-- A value of `interface{}` as the type switch of `E` sees it. -/
inductive Arg where
  | path (v : Path)
  | op (v : Op)
  | kind (v : Kind)
  | str (v : String)
  | ref (v : Ref)
  | errorPtr (p : Option Addr)
  | err (text : String)
  | errPanic
  | other (type : String) (value : String)
  deriving DecidableEq, Repr

/-- What a call of `E` does: it panics, or returns an `error` and leaves a heap. -/
inductive Outcome where
  | panic (msg : String)
  | ret (h : Heap) (v : error)
  deriving DecidableEq, Repr

/-! ## Operations -/

/-- The loop `for _, arg := range args` of `E`.  `e` is the record under construction
(`e := &Error{}`, reachable only from `E` until it is returned, so it is kept as a value
and stored in the heap at `return e`); `cp := *arg; e.Err = &cp` allocates the copy. -/
def E.loop : Error → Heap → List Arg → Outcome
  | e, h, [] => Outcome.ret (h ++ [e]) (error.record (some h.length))
  | e, h, Arg.path v :: rest => E.loop { e with Path := v } h rest
  | e, h, Arg.op v :: rest => E.loop { e with Op := v } h rest
  | e, h, Arg.kind v :: rest => E.loop { e with Kind := v } h rest
  | e, h, Arg.str v :: rest => E.loop { e with Msg := v } h rest
  | e, h, Arg.ref v :: rest => E.loop { e with Ref := v } h rest
  | e, h, Arg.errorPtr p :: rest =>
    match deref h p with
    | none => Outcome.panic "runtime error: invalid memory address or nil pointer dereference"
    | some cp => E.loop { e with Err := error.record (some h.length) } (h ++ [cp]) rest
  | e, h, Arg.err text :: rest => E.loop { e with Err := error.foreign text } h rest
  | e, h, Arg.errPanic :: rest => E.loop { e with Err := error.foreignPanic } h rest
  | _, h, Arg.other type value :: _ =>
    Outcome.ret h (error.foreign ("unknown type: " ++ type ++ ", value: " ++ value))

/-- The constructor `func E(args ...interface{}) error`. -/
def E (h : Heap) (args : List Arg) : Outcome :=
  if args.length = 0 then Outcome.panic "errors.E call without arguments"
  else E.loop {} h args

/-- The helper `pad`: appends `str` to the buffer if the buffer is not empty. -/
def pad (b : String) (str : String) : String :=
  if b.length = 0 then b else b ++ str

/-- The method `func (e *Error) Error() string` on the record `e`, in the heap `h`.
`none`: the call does not return a string (a nil `*Error` is dereferenced, or the chain
of wrapped records is longer than the fuel). -/
def Error.Error (h : Heap) : Nat → Error → Option String
  | fuel, e =>
    let b := ""
    let b := if e.Op ≠ "" then pad b "|" ++ e.Op else b
    let b := if e.Path ≠ "" then pad b "|" ++ e.Path else b
    let b := if e.Kind ≠ 0 then pad b "|" ++ Kind.String e.Kind else b
    let b := if e.Msg ≠ "" then pad b "|" ++ e.Msg else b
    let b := if e.Ref ≠ "" then pad b "|" ++ e.Msg else b
    match e.Err with
    | error.nil => some b
    | error.foreign text => some (pad b "|" ++ text)
    | error.foreignPanic => none
    | error.record p =>
      match fuel with
      | 0 => none
      | n + 1 =>
        match deref h p with
        | none => none
        | some c => (Error.Error h n c).map (fun s => pad b "|" ++ s)

/-- The call `v.Error()` on a non-nil value of the interface `error`. -/
def error.Error (h : Heap) (fuel : Nat) : error → Option String
  | error.nil => none
  | error.foreign text => some text
  | error.foreignPanic => none
  | error.record p =>
    match deref h p with
    | none => none
    | some e => Error.Error h fuel e

/-- The method `func (e *Error) Error() string` once more, in state-passing form, on the
receiver pointer `p`: the call returns the string together with the heap it leaves, and
the heap is threaded through the nested call `e.Err.Error()`.  The body contains no
assignment to a field of a record; the buffer `b` is local to the call. -/
def Error.ErrorSt (h : Heap) : Nat → Option Addr → Option (String × Heap)
  | fuel, p =>
    match deref h p with
    | none => none
    | some e =>
      let b := ""
      let b := if e.Op ≠ "" then pad b "|" ++ e.Op else b
      let b := if e.Path ≠ "" then pad b "|" ++ e.Path else b
      let b := if e.Kind ≠ 0 then pad b "|" ++ Kind.String e.Kind else b
      let b := if e.Msg ≠ "" then pad b "|" ++ e.Msg else b
      let b := if e.Ref ≠ "" then pad b "|" ++ e.Msg else b
      match e.Err with
      | error.nil => some (b, h)
      | error.foreign text => some (pad b "|" ++ text, h)
      | error.foreignPanic => none
      | error.record q =>
        match fuel with
        | 0 => none
        | n + 1 =>
          match Error.ErrorSt h n q with
          | none => none
          | some (s, h₁) => some (pad b "|" ++ s, h₁)

/-! ## Definitions used to state the properties -/

/-- The join the rendering contract describes, without the reference: the texts of the
fields of `e` that are set (operation, path, kind description, message), in this order,
followed by the rendering `cause` of the wrapped cause when there is one. -/
def setFields (e : Error) (cause : Option String) : List String :=
  (if e.Op ≠ "" then [e.Op] else []) ++ (if e.Path ≠ "" then [e.Path] else []) ++
  (if e.Kind ≠ Kind.Other then [Kind.String e.Kind] else []) ++
  (if e.Msg ≠ "" then [e.Msg] else []) ++ cause.toList

/-- The value a fragment gives to the field `Path`, if it targets it. -/
def Arg.asPath : Arg → Option Path
  | Arg.path v => some v
  | _ => none

/-- The value a fragment gives to the field `Op`, if it targets it. -/
def Arg.asOp : Arg → Option Op
  | Arg.op v => some v
  | _ => none

/-- The value a fragment gives to the field `Kind`, if it targets it. -/
def Arg.asKind : Arg → Option Kind
  | Arg.kind v => some v
  | _ => none

/-- The value a fragment gives to the field `Msg`, if it targets it (a bare string). -/
def Arg.asMsg : Arg → Option String
  | Arg.str v => some v
  | _ => none

/-- The value a fragment gives to the field `Ref`, if it targets it. -/
def Arg.asRef : Arg → Option Ref
  | Arg.ref v => some v
  | _ => none

/-- The error-like fragments, those that target the field `Err`: a `*Error` or a foreign
error. -/
def Arg.isErrorLike : Arg → Bool
  | Arg.errorPtr _ => true
  | Arg.err _ => true
  | Arg.errPanic => true
  | _ => false

/-- The fragments of a type the type switch of `E` recognizes. -/
def Arg.recognized : Arg → Bool
  | Arg.other _ _ => false
  | _ => true

/-- A `*Error` fragment is well formed in the heap `h` when it points to a record of `h`
(it is not the nil pointer); every other fragment is well formed. -/
def Arg.wellFormed (h : Heap) : Arg → Bool
  | Arg.errorPtr p => (deref h p).isSome
  | _ => true

/-- The field fragments: those that target one of `Path`, `Op`, `Kind`, `Msg`, `Ref`. -/
def Arg.isField : Arg → Bool
  | Arg.path _ => true
  | Arg.op _ => true
  | Arg.kind _ => true
  | Arg.str _ => true
  | Arg.ref _ => true
  | _ => false

/-- The value of the last fragment of the list that targets the field read by `f`. -/
def lastOf {α : Type} (f : Arg → Option α) (args : List Arg) : Option α :=
  (args.filterMap f).getLast?

/-- The last error-like fragment of the list. -/
def lastErrorLike (args : List Arg) : Option Arg :=
  (args.filter Arg.isErrorLike).getLast?

/-- The record a list of fragments describes, without a wrapped cause: each field has
the value of the last fragment that targets it, or its zero value. -/
def fieldsOf (args : List Arg) : Error :=
  { Path := (lastOf Arg.asPath args).getD ""
    Op := (lastOf Arg.asOp args).getD ""
    Kind := (lastOf Arg.asKind args).getD Kind.Other
    Msg := (lastOf Arg.asMsg args).getD ""
    Ref := (lastOf Arg.asRef args).getD ""
    Err := error.nil }

/-- The fragment types: the seven types the type switch of `E` tells apart, and the
unrecognized ones. -/
inductive FragmentType where
  | operation
  | path
  | kind
  | message
  | reference
  | errorRecord
  | foreignError
  | unrecognized
  deriving DecidableEq, Repr

/-- The fragment type of a fragment. -/
def Arg.fragmentType : Arg → FragmentType
  | Arg.op _ => FragmentType.operation
  | Arg.path _ => FragmentType.path
  | Arg.kind _ => FragmentType.kind
  | Arg.str _ => FragmentType.message
  | Arg.ref _ => FragmentType.reference
  | Arg.errorPtr _ => FragmentType.errorRecord
  | Arg.err _ => FragmentType.foreignError
  | Arg.errPanic => FragmentType.foreignError
  | Arg.other _ _ => FragmentType.unrecognized

/-- The names of the six fields of a record. -/
inductive FieldName where
  | Path
  | Op
  | Kind
  | Msg
  | Ref
  | Err
  deriving DecidableEq, Repr

/-- The field of the record a fragment is assigned to by `E`, if its type is recognized:
an error record and a foreign error are both assigned to `Err`. -/
def Arg.target : Arg → Option FieldName
  | Arg.path _ => some FieldName.Path
  | Arg.op _ => some FieldName.Op
  | Arg.kind _ => some FieldName.Kind
  | Arg.str _ => some FieldName.Msg
  | Arg.ref _ => some FieldName.Ref
  | Arg.errorPtr _ => some FieldName.Err
  | Arg.err _ => some FieldName.Err
  | Arg.errPanic => some FieldName.Err
  | Arg.other _ _ => none

/-- The call `Error()` on the record `e` returns a string, given enough fuel. -/
def Renders (h : Heap) (e : Error) : Prop :=
  ∃ (n : Nat) (s : String), Error.Error h n e = some s

/-! ## Definitions used in the proofs -/

/-- Writing the texts of `l` one after the other to the buffer `b`, each after `pad`. -/
def writeAll (b : String) (l : List String) : String :=
  l.foldl (fun acc s => pad acc "|" ++ s) b

/-- The texts `(*Error).Error` writes before it comes to the wrapped cause. -/
def ownSlots (e : Error) : List String :=
  (if e.Op ≠ "" then [e.Op] else []) ++ (if e.Path ≠ "" then [e.Path] else []) ++
  (if e.Kind ≠ 0 then [Kind.String e.Kind] else []) ++ (if e.Msg ≠ "" then [e.Msg] else []) ++
  (if e.Ref ≠ "" then [e.Msg] else [])

/-- Every text of the list but the last is written to a non-empty buffer. -/
def HeadOk (l : List String) : Prop :=
  ∀ a l', l = a :: l' → l' ≠ [] → a ≠ ""

/-! ## Strings and the separator -/

theorem length_eq_zero_iff (s : String) : s.length = 0 ↔ s = "" := by
  constructor
  · intro hs
    cases s with
    | mk l =>
      have hl : l = [] := List.length_eq_zero.mp hs
      subst hl
      rfl
  · rintro rfl
    rfl

theorem append_ne_empty {a : String} (b : String) (ha : a ≠ "") : a ++ b ≠ "" := by
  intro hab
  apply ha
  have h1 : (a ++ b).length = 0 := by rw [hab]; rfl
  rw [String.length_append] at h1
  exact (length_eq_zero_iff a).1 (by omega)

theorem pad_empty (str : String) : pad "" str = "" := by
  unfold pad
  exact if_pos rfl

theorem pad_of_ne {b : String} (str : String) (hb : b ≠ "") : pad b str = b ++ str := by
  have hl : b.length ≠ 0 := fun hl => hb ((length_eq_zero_iff b).1 hl)
  unfold pad
  exact if_neg hl

theorem ite_ne {c : Prop} [Decidable c] {a b x : String} (ha : a ≠ x) (hb : b ≠ x) :
    (if c then a else b) ≠ x := by
  split
  · exact ha
  · exact hb

theorem Kind.String_ne_empty (k : Kind) : Kind.String k ≠ "" := by
  unfold Kind.String
  repeat' apply ite_ne
  all_goals decide

theorem writeAll_of_ne (b : String) (hb : b ≠ "") (l : List String) :
    writeAll b l = String.intercalate.go b "|" l := by
  induction l generalizing b with
  | nil => rfl
  | cons a l ih =>
    have hne : b ++ "|" ++ a ≠ "" := by
      rw [String.append_assoc]
      exact append_ne_empty _ hb
    simp only [writeAll, List.foldl_cons, String.intercalate.go, pad_of_ne "|" hb]
    exact ih _ hne

theorem writeAll_eq_intercalate (l : List String)
    (hl : ∀ a l', l = a :: l' → l' ≠ [] → a ≠ "") : writeAll "" l = "|".intercalate l := by
  cases l with
  | nil => rfl
  | cons a l' =>
    cases l' with
    | nil => simp [writeAll, pad_empty, String.intercalate, String.intercalate.go]
    | cons c l'' =>
      have ha : a ≠ "" := hl a (c :: l'') rfl (by simp)
      have h1 : writeAll "" (a :: c :: l'') = writeAll a (c :: l'') := by
        simp [writeAll, pad_empty]
      rw [h1, writeAll_of_ne a ha]
      rfl

theorem writeAll_append (b : String) (l₁ l₂ : List String) :
    writeAll b (l₁ ++ l₂) = writeAll (writeAll b l₁) l₂ := by
  simp [writeAll, List.foldl_append]

theorem writeAll_ite (b : String) (c : Prop) [Decidable c] (x : String) :
    (if c then pad b "|" ++ x else b) = writeAll b (if c then [x] else []) := by
  split <;> rfl

theorem writeAll_snoc (b : String) (l : List String) (x : String) :
    writeAll b (l ++ [x]) = pad (writeAll b l) "|" ++ x := by
  rw [writeAll_append]
  rfl

theorem Error_eq (h : Heap) (fuel : Nat) (e : Error) :
    Error.Error h fuel e =
      match e.Err with
      | error.nil => some (writeAll "" (ownSlots e))
      | error.foreign text => some (writeAll "" (ownSlots e ++ [text]))
      | error.foreignPanic => none
      | error.record p =>
        match fuel with
        | 0 => none
        | n + 1 =>
          match deref h p with
          | none => none
          | some c => (Error.Error h n c).map (fun s => writeAll "" (ownSlots e ++ [s])) := by
  cases fuel with
  | zero =>
    rw [Error.Error]
    simp only [writeAll_ite, ownSlots, writeAll_append]
    rfl
  | succ n =>
    rw [Error.Error]
    simp only [writeAll_ite, ownSlots, writeAll_append]
    rfl

theorem headOk_ite_append (c : Prop) [Decidable c] (x : String) (rest : List String)
    (hx : c → x ≠ "") (hrest : HeadOk rest) : HeadOk ((if c then [x] else []) ++ rest) := by
  by_cases hc : c
  · intro a l' hl _
    simp only [if_pos hc, List.singleton_append, List.cons.injEq] at hl
    rw [← hl.1]
    exact hx hc
  · simpa only [if_neg hc, List.nil_append] using hrest

theorem headOk_toList (c : Option String) : HeadOk c.toList := by
  intro a l' hl hl'
  cases c with
  | none => simp at hl
  | some s =>
    simp only [Option.toList_some, List.cons.injEq] at hl
    exact absurd hl.2.symm hl'

theorem headOk_setFields (e : Error) (c : Option String) : HeadOk (setFields e c) := by
  unfold setFields
  simp only [List.append_assoc]
  apply headOk_ite_append _ _ _ (fun hc => hc)
  apply headOk_ite_append _ _ _ (fun hc => hc)
  apply headOk_ite_append _ _ _ (fun _ => Kind.String_ne_empty e.Kind)
  apply headOk_ite_append _ _ _ (fun hc => hc)
  exact headOk_toList c

theorem ownSlots_of_ref_empty (e : Error) (hRef : e.Ref = "") (c : Option String) :
    ownSlots e ++ c.toList = setFields e c := by
  simp [ownSlots, setFields, hRef]

/-! ## Rendering: the join of the fields that are set -/

/-- C1: for a record whose reference is unset, `Error()` returns the join with `|` of the
texts of the fields that are set, in the order operation, path, kind description,
message, wrapped cause: with no wrapped cause for every fuel, with a foreign cause of
text `t` for every fuel, and with any wrapped cause whose own `Error()` returns `c`
within fuel `n`, within fuel `n + 1`. -/
theorem C1_Error_is_join (h : Heap) (n : Nat) (e : Error) (hRef : e.Ref = "") :
    (e.Err = error.nil → Error.Error h n e = some ("|".intercalate (setFields e none))) ∧
    (∀ t, e.Err = error.foreign t →
      Error.Error h n e = some ("|".intercalate (setFields e (some t)))) ∧
    (∀ c, error.Error h n e.Err = some c →
      Error.Error h (n + 1) e = some ("|".intercalate (setFields e (some c)))) := by
  refine ⟨?_, ?_, ?_⟩
  · intro hErr
    rw [Error_eq, hErr, ← writeAll_eq_intercalate _ (headOk_setFields e none),
      ← ownSlots_of_ref_empty e hRef none]
    simp
  · intro t hErr
    rw [Error_eq, hErr, ← writeAll_eq_intercalate _ (headOk_setFields e (some t)),
      ← ownSlots_of_ref_empty e hRef (some t)]
    simp
  · intro c hc
    rw [← writeAll_eq_intercalate _ (headOk_setFields e (some c)),
      ← ownSlots_of_ref_empty e hRef (some c), Error_eq]
    cases hErr : e.Err with
    | nil => simp [hErr, error.Error] at hc
    | foreignPanic => simp [hErr, error.Error] at hc
    | foreign t =>
      simp only [hErr, error.Error, Option.some.injEq] at hc
      simp [hc]
    | record p =>
      simp only [hErr, error.Error] at hc
      cases hd : deref h p with
      | none => simp [hd] at hc
      | some x =>
        simp only [hd] at hc
        simp [hd, hc]

theorem C1_Error_is_join_witness :
    ({ Op := "open", Msg := "boom", Err := error.record (some 0) } : Error).Ref = "" ∧
    Error.Error [{ Path := "/tmp/x", Kind := Kind.IsDir }] 1
        { Op := "open", Msg := "boom", Err := error.record (some 0) }
      = some "open|boom|/tmp/x|item is a directoy" :=
  ⟨rfl, (C1_Error_is_join [{ Path := "/tmp/x", Kind := Kind.IsDir }] 0
    { Op := "open", Msg := "boom", Err := error.record (some 0) } rfl).2.2
      "/tmp/x|item is a directoy" (by decide)⟩

theorem Error_of_nil (h : Heap) (n : Nat) (e : Error) (hErr : e.Err = error.nil) :
    Error.Error h n e = some (writeAll "" (ownSlots e)) := by
  rw [Error_eq, hErr]

/-- With a wrapped cause whose `Error()` returns `c` within fuel `n`, the record renders,
within fuel `n + 1`, as `c` written after `pad` to what its own fields give. -/
theorem Error_of_cause (h : Heap) (n : Nat) (e : Error) (c : String)
    (hc : error.Error h n e.Err = some c) :
    Error.Error h (n + 1) e = some (pad (writeAll "" (ownSlots e)) "|" ++ c) := by
  rw [Error_eq]
  cases hErr : e.Err with
  | nil => simp [hErr, error.Error] at hc
  | foreignPanic => simp [hErr, error.Error] at hc
  | foreign t =>
    simp only [hErr, error.Error, Option.some.injEq] at hc
    simp only [hc, writeAll_snoc]
  | record p =>
    simp only [hErr, error.Error] at hc
    cases hd : deref h p with
    | none => simp [hd] at hc
    | some x =>
      simp only [hd] at hc
      simp only [hd, hc, Option.map_some', writeAll_snoc]

/-- C5: a record `e` whose wrapped cause renders as `c` renders as `c` when its own
rendering `own` (that of `e` with the cause removed) is empty and as `own ++ "|" ++ c`
otherwise; in both cases the rendering ends with `c`. -/
theorem C5_Error_ends_with_cause (h : Heap) (n : Nat) (e : Error) (c : String)
    (hc : error.Error h n e.Err = some c) :
    ∃ own : String, Error.Error h n { e with Err := error.nil } = some own ∧
      Error.Error h (n + 1) e = some (if own = "" then c else own ++ "|" ++ c) ∧
      ∃ pre : String, Error.Error h (n + 1) e = some (pre ++ c) := by
  refine ⟨writeAll "" (ownSlots e), Error_of_nil h n _ rfl, ?_, ?_⟩
  · rw [Error_of_cause h n e c hc]
    by_cases hown : writeAll "" (ownSlots e) = ""
    · rw [if_pos hown, hown, pad_empty, String.empty_append]
    · rw [if_neg hown, pad_of_ne "|" hown]
  · exact ⟨pad (writeAll "" (ownSlots e)) "|", Error_of_cause h n e c hc⟩

theorem C5_Error_ends_with_cause_witness :
    error.Error [{ Op := "read", Kind := Kind.IO }] 0 (error.record (some 0))
      = some "read|I/O error" ∧
    Error.Error [{ Op := "read", Kind := Kind.IO }] 1
        { Op := "open", Path := "/tmp/x", Err := error.record (some 0) }
      = some "open|/tmp/x|read|I/O error" ∧
    Error.Error [] 0 { Err := error.foreign "EOF" } = some "EOF" := by
  obtain ⟨own, h1, h2, _⟩ := C5_Error_ends_with_cause [{ Op := "read", Kind := Kind.IO }] 0
    { Op := "open", Path := "/tmp/x", Err := error.record (some 0) } "read|I/O error" (by decide)
  have hown : Error.Error [{ Op := "read", Kind := Kind.IO }] 0
      { Op := "open", Path := "/tmp/x", Err := error.nil } = some "open|/tmp/x" := by decide
  rw [hown, Option.some.injEq] at h1
  subst h1
  exact ⟨by decide, h2, by decide⟩

/-! ## The constructor `E` -/

theorem deref_append {h : Heap} {p : Option Addr} {x : Error} (l : List Error)
    (hd : deref h p = some x) : deref (h ++ l) p = some x := by
  cases p with
  | none => simp [deref] at hd
  | some a =>
    simp only [deref, Option.some_bind] at hd ⊢
    have hlt : a < h.length := by
      by_contra hge
      rw [List.getElem?_eq_none (Nat.le_of_not_lt hge)] at hd
      exact Option.noConfusion hd
    rw [List.getElem?_append_left hlt]
    exact hd

theorem deref_lt {h : Heap} {a : Nat} {x : Error} (hd : deref h (some a) = some x) :
    a < h.length := by
  simp only [deref, Option.some_bind] at hd
  by_contra hge
  rw [List.getElem?_eq_none (Nat.le_of_not_lt hge)] at hd
  exact Option.noConfusion hd

theorem lastOf_cons {α : Type} (f : Arg → Option α) (a : Arg) (rest : List Arg) (d : α) :
    (lastOf f (a :: rest)).getD d =
      (lastOf f rest).getD (match f a with | none => d | some v => v) := by
  unfold lastOf
  cases hfa : f a with
  | none => simp [List.filterMap_cons, hfa]
  | some v =>
    simp only [List.filterMap_cons, hfa, List.getLast?_cons]
    rfl

theorem lastErrorLike_cons_of_not (a : Arg) (rest : List Arg) (ha : a.isErrorLike = false) :
    lastErrorLike (a :: rest) = lastErrorLike rest := by
  simp [lastErrorLike, List.filter_cons, ha]

theorem lastErrorLike_cons_of (a : Arg) (rest : List Arg) (ha : a.isErrorLike = true) :
    lastErrorLike (a :: rest) = some ((lastErrorLike rest).getD a) := by
  simp only [lastErrorLike, List.filter_cons, ha, if_true, List.getLast?_cons]

/-- The loop of `E` on recognized fragments whose `*Error` pointers point to records of
`h`: it returns a new record, stored behind the copies it made, whose fields are those
of the last fragment that targets them, or those of `e` when none does. -/
theorem E_loop_spec (h : Heap) (args : List Arg)
    (hrec : ∀ a ∈ args, a.recognized = true)
    (hptr : ∀ p, Arg.errorPtr p ∈ args → (deref h p).isSome = true) :
    ∀ (e : Error) (l : List Error), ∃ (l' : List Error) (e' : Error),
      E.loop e (h ++ l) args
        = Outcome.ret (h ++ l ++ l' ++ [e']) (error.record (some (h ++ l ++ l').length)) ∧
      e'.Path = (lastOf Arg.asPath args).getD e.Path ∧
      e'.Op = (lastOf Arg.asOp args).getD e.Op ∧
      e'.Kind = (lastOf Arg.asKind args).getD e.Kind ∧
      e'.Msg = (lastOf Arg.asMsg args).getD e.Msg ∧
      e'.Ref = (lastOf Arg.asRef args).getD e.Ref ∧
      (lastErrorLike args = none → e'.Err = e.Err) ∧
      (∀ t, lastErrorLike args = some (Arg.err t) → e'.Err = error.foreign t) ∧
      (∀ p, lastErrorLike args = some (Arg.errorPtr p) →
        ∃ c, e'.Err = error.record (some c) ∧ (h ++ l).length ≤ c ∧
          (h ++ l ++ l')[c]? = deref h p) ∧
      (lastErrorLike args = some Arg.errPanic → e'.Err = error.foreignPanic) := by
  induction args with
  | nil =>
    intro e l
    exact ⟨[], e, by simp [E.loop], rfl, rfl, rfl, rfl, rfl, fun _ => rfl,
      fun t ht => by simp [lastErrorLike] at ht, fun p hp => by simp [lastErrorLike] at hp,
      fun hp => by simp [lastErrorLike] at hp⟩
  | cons a rest ih =>
    have hrec' : ∀ a ∈ rest, a.recognized = true := fun x hx => hrec x (List.mem_cons_of_mem _ hx)
    have hptr' : ∀ p, Arg.errorPtr p ∈ rest → (deref h p).isSome = true :=
      fun p hp => hptr p (List.mem_cons_of_mem _ hp)
    intro e l
    cases a with
    | path v =>
      obtain ⟨l', e', hE, h1, h2, h3, h4, h5, h6, h7, h8, h9⟩ := ih hrec' hptr' { e with Path := v } l
      have hnot := lastErrorLike_cons_of_not (Arg.path v) rest rfl
      refine ⟨l', e', by rw [E.loop]; exact hE, ?_, ?_, ?_, ?_, ?_, ?_, ?_, ?_, ?_⟩
      all_goals first
        | (rw [lastOf_cons]; assumption)
        | (rw [hnot]; assumption)
    | op v =>
      obtain ⟨l', e', hE, h1, h2, h3, h4, h5, h6, h7, h8, h9⟩ := ih hrec' hptr' { e with Op := v } l
      have hnot := lastErrorLike_cons_of_not (Arg.op v) rest rfl
      refine ⟨l', e', by rw [E.loop]; exact hE, ?_, ?_, ?_, ?_, ?_, ?_, ?_, ?_, ?_⟩
      all_goals first
        | (rw [lastOf_cons]; assumption)
        | (rw [hnot]; assumption)
    | kind v =>
      obtain ⟨l', e', hE, h1, h2, h3, h4, h5, h6, h7, h8, h9⟩ := ih hrec' hptr' { e with Kind := v } l
      have hnot := lastErrorLike_cons_of_not (Arg.kind v) rest rfl
      refine ⟨l', e', by rw [E.loop]; exact hE, ?_, ?_, ?_, ?_, ?_, ?_, ?_, ?_, ?_⟩
      all_goals first
        | (rw [lastOf_cons]; assumption)
        | (rw [hnot]; assumption)
    | str v =>
      obtain ⟨l', e', hE, h1, h2, h3, h4, h5, h6, h7, h8, h9⟩ := ih hrec' hptr' { e with Msg := v } l
      have hnot := lastErrorLike_cons_of_not (Arg.str v) rest rfl
      refine ⟨l', e', by rw [E.loop]; exact hE, ?_, ?_, ?_, ?_, ?_, ?_, ?_, ?_, ?_⟩
      all_goals first
        | (rw [lastOf_cons]; assumption)
        | (rw [hnot]; assumption)
    | ref v =>
      obtain ⟨l', e', hE, h1, h2, h3, h4, h5, h6, h7, h8, h9⟩ := ih hrec' hptr' { e with Ref := v } l
      have hnot := lastErrorLike_cons_of_not (Arg.ref v) rest rfl
      refine ⟨l', e', by rw [E.loop]; exact hE, ?_, ?_, ?_, ?_, ?_, ?_, ?_, ?_, ?_⟩
      all_goals first
        | (rw [lastOf_cons]; assumption)
        | (rw [hnot]; assumption)
    | errorPtr p =>
      obtain ⟨cp, hcp⟩ := Option.isSome_iff_exists.1 (hptr p (List.mem_cons_self _ _))
      obtain ⟨l', e', hE, h1, h2, h3, h4, h5, h6, h7, h8, h9⟩ :=
        ih hrec' hptr' { e with Err := error.record (some (h ++ l).length) } (l ++ [cp])
      have hyes := lastErrorLike_cons_of (Arg.errorPtr p) rest rfl
      have hassoc : h ++ (l ++ [cp]) ++ l' = h ++ l ++ (cp :: l') := by simp
      rw [hassoc] at hE h8
      refine ⟨cp :: l', e', ?_, ?_, ?_, ?_, ?_, ?_, ?_, ?_, ?_, ?_⟩
      · rw [E.loop, deref_append l hcp]
        simpa using hE
      · rw [lastOf_cons]; assumption
      · rw [lastOf_cons]; assumption
      · rw [lastOf_cons]; assumption
      · rw [lastOf_cons]; assumption
      · rw [lastOf_cons]; assumption
      · intro hn
        rw [hyes] at hn
        exact Option.noConfusion hn
      · intro t ht
        rw [hyes] at ht
        cases hl : lastErrorLike rest with
        | none => simp [hl] at ht
        | some x =>
          simp only [hl, Option.getD_some, Option.some.injEq] at ht
          exact h7 t (by rw [hl, ht])
      · intro q hq
        rw [hyes] at hq
        cases hl : lastErrorLike rest with
        | none =>
          simp only [hl, Option.getD_none, Option.some.injEq, Arg.errorPtr.injEq] at hq
          refine ⟨(h ++ l).length, h6 hl, Nat.le_refl _, ?_⟩
          rw [← hq, hcp, List.getElem?_append_right (Nat.le_refl _)]
          simp
        | some x =>
          simp only [hl, Option.getD_some, Option.some.injEq] at hq
          obtain ⟨c, hc1, hc2, hc3⟩ := h8 q (by rw [hl, hq])
          refine ⟨c, hc1, ?_, hc3⟩
          have hlen : (h ++ l).length ≤ (h ++ (l ++ [cp])).length := by simp
          exact Nat.le_trans hlen hc2
      · intro hq
        rw [hyes] at hq
        cases hl : lastErrorLike rest with
        | none => simp [hl] at hq
        | some x =>
          simp only [hl, Option.getD_some, Option.some.injEq] at hq
          exact h9 (by rw [hl, hq])
    | err t =>
      obtain ⟨l', e', hE, h1, h2, h3, h4, h5, h6, h7, h8, h9⟩ :=
        ih hrec' hptr' { e with Err := error.foreign t } l
      have hyes := lastErrorLike_cons_of (Arg.err t) rest rfl
      refine ⟨l', e', by rw [E.loop]; exact hE, ?_, ?_, ?_, ?_, ?_, ?_, ?_, ?_, ?_⟩
      · rw [lastOf_cons]; assumption
      · rw [lastOf_cons]; assumption
      · rw [lastOf_cons]; assumption
      · rw [lastOf_cons]; assumption
      · rw [lastOf_cons]; assumption
      · intro hn
        rw [hyes] at hn
        exact Option.noConfusion hn
      · intro t' ht
        rw [hyes] at ht
        cases hl : lastErrorLike rest with
        | none =>
          simp only [hl, Option.getD_none, Option.some.injEq, Arg.err.injEq] at ht
          rw [← ht]
          exact h6 hl
        | some x =>
          simp only [hl, Option.getD_some, Option.some.injEq] at ht
          exact h7 t' (by rw [hl, ht])
      · intro q hq
        rw [hyes] at hq
        cases hl : lastErrorLike rest with
        | none => simp [hl] at hq
        | some x =>
          simp only [hl, Option.getD_some, Option.some.injEq] at hq
          exact h8 q (by rw [hl, hq])
      · intro hq
        rw [hyes] at hq
        cases hl : lastErrorLike rest with
        | none => simp [hl] at hq
        | some x =>
          simp only [hl, Option.getD_some, Option.some.injEq] at hq
          exact h9 (by rw [hl, hq])
    | errPanic =>
      obtain ⟨l', e', hE, h1, h2, h3, h4, h5, h6, h7, h8, h9⟩ :=
        ih hrec' hptr' { e with Err := error.foreignPanic } l
      have hyes := lastErrorLike_cons_of Arg.errPanic rest rfl
      refine ⟨l', e', by rw [E.loop]; exact hE, ?_, ?_, ?_, ?_, ?_, ?_, ?_, ?_, ?_⟩
      · rw [lastOf_cons]; assumption
      · rw [lastOf_cons]; assumption
      · rw [lastOf_cons]; assumption
      · rw [lastOf_cons]; assumption
      · rw [lastOf_cons]; assumption
      · intro hn
        rw [hyes] at hn
        exact Option.noConfusion hn
      · intro t' ht
        rw [hyes] at ht
        cases hl : lastErrorLike rest with
        | none => simp [hl] at ht
        | some x =>
          simp only [hl, Option.getD_some, Option.some.injEq] at ht
          exact h7 t' (by rw [hl, ht])
      · intro q hq
        rw [hyes] at hq
        cases hl : lastErrorLike rest with
        | none => simp [hl] at hq
        | some x =>
          simp only [hl, Option.getD_some, Option.some.injEq] at hq
          exact h8 q (by rw [hl, hq])
      · intro hq
        rw [hyes] at hq
        cases hl : lastErrorLike rest with
        | none => exact h6 hl
        | some x =>
          simp only [hl, Option.getD_some, Option.some.injEq] at hq
          exact h9 (by rw [hl, hq])
    | other ty v => exact absurd (hrec _ (List.mem_cons_self _ _)) (by simp [Arg.recognized])

theorem wellFormed_ptr {h : Heap} {args : List Arg}
    (hwf : ∀ a ∈ args, a.wellFormed h = true) :
    ∀ p, Arg.errorPtr p ∈ args → (deref h p).isSome = true :=
  fun p hp => hwf (Arg.errorPtr p) hp

/-- What `E` returns on a non-empty list of recognized, well-formed fragments: a new
record `e`, stored at the end of the heap behind the copies `l` made on the way. -/
theorem E_record_spec (h : Heap) (args : List Arg) (hne : args ≠ [])
    (hrec : ∀ a ∈ args, a.recognized = true)
    (hwf : ∀ a ∈ args, a.wellFormed h = true) :
    ∃ (l : List Error) (e : Error),
      E h args = Outcome.ret (h ++ l ++ [e]) (error.record (some (h ++ l).length)) ∧
      e.Path = (lastOf Arg.asPath args).getD "" ∧
      e.Op = (lastOf Arg.asOp args).getD "" ∧
      e.Kind = (lastOf Arg.asKind args).getD Kind.Other ∧
      e.Msg = (lastOf Arg.asMsg args).getD "" ∧
      e.Ref = (lastOf Arg.asRef args).getD "" ∧
      (lastErrorLike args = none → e.Err = error.nil) ∧
      (∀ t, lastErrorLike args = some (Arg.err t) → e.Err = error.foreign t) ∧
      (∀ p, lastErrorLike args = some (Arg.errorPtr p) →
        ∃ (c : Nat) (x : Error), e.Err = error.record (some c) ∧ h.length ≤ c ∧
          c < (h ++ l).length ∧ (h ++ l)[c]? = some x ∧ deref h p = some x) := by
  obtain ⟨l', e', hE, h1, h2, h3, h4, h5, h6, h7, h8, _⟩ :=
    E_loop_spec h args hrec (wellFormed_ptr hwf) {} []
  simp only [List.append_nil] at hE h8
  have hlen : args.length ≠ 0 := fun h0 => hne (List.length_eq_zero.1 h0)
  refine ⟨l', e', ?_, h1, h2, h3, h4, h5, h6, h7, ?_⟩
  · rw [E, if_neg hlen]
    exact hE
  · intro p hp
    obtain ⟨c, hc1, hc2, hc3⟩ := h8 p hp
    have hs : (deref h p).isSome = true := by
      have hmem : Arg.errorPtr p ∈ args.filter Arg.isErrorLike :=
        List.mem_of_mem_getLast? hp
      exact wellFormed_ptr hwf p (List.mem_filter.1 hmem).1
    obtain ⟨x, hx⟩ := Option.isSome_iff_exists.1 hs
    rw [hx] at hc3
    have hlt : c < (h ++ l').length := by
      by_contra hge
      rw [List.getElem?_eq_none (Nat.le_of_not_lt hge)] at hc3
      exact Option.noConfusion hc3
    exact ⟨c, x, hc1, hc2, hlt, hc3, hx⟩

theorem getElem?_append_of_some {h : Heap} {a : Addr} {x : Error} (l : List Error)
    (ha : h[a]? = some x) : (h ++ l)[a]? = some x := by
  have hd : deref h (some a) = some x := by simpa [deref] using ha
  simpa [deref] using deref_append l hd

/-- C2: `E` called with `Op("open")` and the nil `*Error`, a non-empty list of fragments of
recognized types, panics on the dereference `cp := *arg` and returns no record.  On
every non-empty list of recognized fragments whose `*Error` fragments point to records,
`E` returns a new record, the heap being only extended; each of `Path`, `Op`, `Kind`,
`Msg`, `Ref` has the value of the last fragment that targets it, or its zero value when
none does; `Err` is nil when there is no error-like fragment, the last error-like
fragment itself when that is a foreign error, and a pointer to a record equal to the
pointed one when it is a `*Error`. -/
theorem C2_nil_fragment_no_record :
    ((∀ a ∈ [Arg.op "open", Arg.errorPtr none], a.recognized = true) ∧
      [Arg.op "open", Arg.errorPtr none] ≠ [] ∧
      E [] [Arg.op "open", Arg.errorPtr none]
        = Outcome.panic "runtime error: invalid memory address or nil pointer dereference") ∧
    (∀ (h : Heap) (args : List Arg), args ≠ [] → (∀ a ∈ args, a.recognized = true) →
      (∀ a ∈ args, a.wellFormed h = true) →
      ∃ (h' : Heap) (a : Addr) (e : Error),
        E h args = Outcome.ret h' (error.record (some a)) ∧ h'[a]? = some e ∧
        (∃ l, h' = h ++ l) ∧
        e.Path = (lastOf Arg.asPath args).getD "" ∧
        e.Op = (lastOf Arg.asOp args).getD "" ∧
        e.Kind = (lastOf Arg.asKind args).getD Kind.Other ∧
        e.Msg = (lastOf Arg.asMsg args).getD "" ∧
        e.Ref = (lastOf Arg.asRef args).getD "" ∧
        (lastErrorLike args = none → e.Err = error.nil) ∧
        (∀ t, lastErrorLike args = some (Arg.err t) → e.Err = error.foreign t) ∧
        (lastErrorLike args = some Arg.errPanic → e.Err = error.foreignPanic) ∧
        (∀ p, lastErrorLike args = some (Arg.errorPtr p) →
          ∃ c, e.Err = error.record (some c) ∧ h'[c]? = deref h p ∧
            (deref h p).isSome = true)) := by
  refine ⟨by decide, ?_⟩
  intro h args hne hrec hwf
  obtain ⟨l, e, hE, h1, h2, h3, h4, h5, h6, h7, h8, h9⟩ :=
    E_loop_spec h args hrec (wellFormed_ptr hwf) {} []
  simp only [List.append_nil] at hE h8
  have hlen : args.length ≠ 0 := fun h0 => hne (List.length_eq_zero.1 h0)
  refine ⟨h ++ l ++ [e], (h ++ l).length, e, ?_, List.getElem?_concat_length _ _,
    ⟨l ++ [e], by simp⟩, h1, h2, h3, h4, h5, h6, h7, h9, ?_⟩
  · rw [E, if_neg hlen]
    exact hE
  · intro p hp
    obtain ⟨c, hc1, _, hc3⟩ := h8 p hp
    have hs : (deref h p).isSome = true := by
      have hmem : Arg.errorPtr p ∈ args.filter Arg.isErrorLike :=
        List.mem_of_mem_getLast? hp
      exact wellFormed_ptr hwf p (List.mem_filter.1 hmem).1
    refine ⟨c, hc1, ?_, hs⟩
    obtain ⟨x, hx⟩ := Option.isSome_iff_exists.1 hs
    rw [hx] at hc3 ⊢
    exact getElem?_append_of_some [e] hc3

/-! ## Wrapping -/

theorem ownSlots_congr {e₁ e₂ : Error} (hOp : e₁.Op = e₂.Op) (hPath : e₁.Path = e₂.Path)
    (hKind : e₁.Kind = e₂.Kind) (hMsg : e₁.Msg = e₂.Msg) (hRef : e₁.Ref = e₂.Ref) :
    ownSlots e₁ = ownSlots e₂ := by
  simp only [ownSlots, hOp, hPath, hKind, hMsg, hRef]

theorem error_Error_record {h : Heap} {a : Addr} {e : Error} (n : Nat) (ha : h[a]? = some e) :
    error.Error h n (error.record (some a)) = Error.Error h n e := by
  simp only [error.Error, deref, Option.some_bind, ha]

/-- A record with a non-empty own rendering that wraps a record `x` renders as its own
rendering, the separator, and the rendering of `x`. -/
theorem Error_of_wrapped {h : Heap} {n : Nat} {e x : Error} {c : Addr} {s : String}
    (hErr : e.Err = error.record (some c)) (hc : h[c]? = some x)
    (hx : Error.Error h n x = some s) (hown : writeAll "" (ownSlots e) ≠ "") :
    Error.Error h (n + 1) e = some (writeAll "" (ownSlots e) ++ "|" ++ s) := by
  rw [Error_of_cause h n e s (by rw [hErr, error_Error_record n hc]; exact hx),
    pad_of_ne "|" hown]

theorem lastOf_insert {α : Type} (f : Arg → Option α) (pre post : List Arg) (x : Arg)
    (hx : f x = none) : lastOf f (pre ++ x :: post) = lastOf f (pre ++ post) := by
  simp [lastOf, List.filterMap_append, List.filterMap_cons, hx]

theorem filter_isErrorLike_of_isField (l : List Arg) (hl : ∀ f ∈ l, f.isField = true) :
    l.filter Arg.isErrorLike = [] := by
  rw [List.filter_eq_nil_iff]
  intro a ha
  have hf := hl a ha
  cases a <;> simp_all [Arg.isField, Arg.isErrorLike]

theorem lastErrorLike_insert (pre post : List Arg) (x : Arg) (hx : x.isErrorLike = true)
    (hf : ∀ f ∈ pre ++ post, f.isField = true) :
    lastErrorLike (pre ++ x :: post) = some x := by
  have hpre := filter_isErrorLike_of_isField pre (fun f hf' => hf f (List.mem_append_left _ hf'))
  have hpost := filter_isErrorLike_of_isField post
    (fun f hf' => hf f (List.mem_append_right _ hf'))
  simp [lastErrorLike, List.filter_append, List.filter_cons, hpre, hpost, hx]

theorem recognized_insert (pre post : List Arg) (p : Option Addr)
    (hf : ∀ f ∈ pre ++ post, f.isField = true) :
    ∀ a ∈ pre ++ Arg.errorPtr p :: post, a.recognized = true := by
  intro a ha
  rcases List.mem_append.1 ha with ha | ha
  · have := hf a (List.mem_append_left _ ha)
    cases a <;> simp_all [Arg.isField, Arg.recognized]
  · rcases List.mem_cons.1 ha with ha | ha
    · rw [ha]; rfl
    · have := hf a (List.mem_append_right _ ha)
      cases a <;> simp_all [Arg.isField, Arg.recognized]

theorem wellFormed_insert (h : Heap) (pre post : List Arg) (p : Option Addr)
    (hp : (deref h p).isSome = true)
    (hf : ∀ f ∈ pre ++ post, f.isField = true) :
    ∀ a ∈ pre ++ Arg.errorPtr p :: post, a.wellFormed h = true := by
  intro a ha
  rcases List.mem_append.1 ha with ha | ha
  · have := hf a (List.mem_append_left _ ha)
    cases a <;> simp_all [Arg.isField, Arg.wellFormed]
  · rcases List.mem_cons.1 ha with ha | ha
    · rw [ha]; exact hp
    · have := hf a (List.mem_append_right _ ha)
      cases a <;> simp_all [Arg.isField, Arg.wellFormed]

/-- `E` on field fragments and one pointer to a record `x`, at any position: the new
record has the fields of `fieldsOf` and wraps a copy of `x` at a new address. -/
theorem E_wrap_spec (h : Heap) (pre post : List Arg) (a : Addr) (x : Error)
    (ha : h[a]? = some x) (hf : ∀ f ∈ pre ++ post, f.isField = true) :
    ∃ (l : List Error) (e : Error) (c : Nat),
      E h (pre ++ Arg.errorPtr (some a) :: post)
        = Outcome.ret (h ++ l ++ [e]) (error.record (some (h ++ l).length)) ∧
      ownSlots e = ownSlots (fieldsOf (pre ++ post)) ∧
      e.Err = error.record (some c) ∧ h.length ≤ c ∧ c < (h ++ l).length ∧
      (h ++ l)[c]? = some x := by
  have hd : deref h (some a) = some x := by simpa [deref] using ha
  obtain ⟨l, e, hE, h1, h2, h3, h4, h5, _, _, h8⟩ :=
    E_record_spec h (pre ++ Arg.errorPtr (some a) :: post) (by simp)
      (recognized_insert pre post _ hf)
      (wellFormed_insert h pre post _ (by rw [hd]; rfl) hf)
  obtain ⟨c, y, hc1, hc2, hc3, hc4, hc5⟩ := h8 (some a) (lastErrorLike_insert pre post _ rfl hf)
  rw [hd, Option.some.injEq] at hc5
  rw [← hc5] at hc4
  rw [lastOf_insert _ _ _ _ rfl] at h1 h2 h3 h4 h5
  exact ⟨l, e, c, hE, ownSlots_congr h2 h1 h3 h4 h5, hc1, hc2, hc3, hc4⟩

/-- C6: let `A` be a record of the heap with no wrapped cause, and let the field
fragments `preB ++ postB` and `preC ++ postC` describe the records `B` and `C`; let the
own renderings of `A`, `B`, `C` be `ownA`, `ownB`, `ownC`, those of `B` and `C` non-empty
(that of `A` may be anything).  Then `E` on `B`'s fragments plus `A` returns a record,
`E` on `C`'s fragments plus that record returns a record, and this one renders as
`ownC ++ "|" ++ ownB ++ "|" ++ ownA`, for every fuel from 2 on.  The pointer fragment may
stand at any position among the field fragments. -/
theorem C6_three_level_chain (h : Heap) (pA : Addr) (A : Error)
    (preB postB preC postC : List Arg) (n : Nat) (ownA ownB ownC : String)
    (hA : h[pA]? = some A) (hAErr : A.Err = error.nil)
    (hfB : ∀ f ∈ preB ++ postB, f.isField = true)
    (hfC : ∀ f ∈ preC ++ postC, f.isField = true)
    (hoA : Error.Error h 0 A = some ownA)
    (hoB : Error.Error h 0 (fieldsOf (preB ++ postB)) = some ownB)
    (hoC : Error.Error h 0 (fieldsOf (preC ++ postC)) = some ownC)
    (hneB : ownB ≠ "") (hneC : ownC ≠ "") :
    ∃ (h₁ : Heap) (pB : Addr) (h₂ : Heap) (pC : Addr),
      E h (preB ++ Arg.errorPtr (some pA) :: postB)
        = Outcome.ret h₁ (error.record (some pB)) ∧
      E h₁ (preC ++ Arg.errorPtr (some pB) :: postC)
        = Outcome.ret h₂ (error.record (some pC)) ∧
      error.Error h₂ (n + 2) (error.record (some pC))
        = some (ownC ++ "|" ++ ownB ++ "|" ++ ownA) := by
  obtain ⟨l₁, B, cA, hE₁, hsB, hBErr, _, hcA, hcA'⟩ := E_wrap_spec h preB postB pA A hA hfB
  have hB : (h ++ l₁ ++ [B])[(h ++ l₁).length]? = some B := List.getElem?_concat_length _ _
  obtain ⟨l₂, C, cB, hE₂, hsC, hCErr, _, hcB, hcB'⟩ :=
    E_wrap_spec (h ++ l₁ ++ [B]) preC postC (h ++ l₁).length B hB hfC
  refine ⟨_, _, _, _, hE₁, hE₂, ?_⟩
  rw [Error_of_nil h 0 A hAErr, Option.some.injEq] at hoA
  rw [Error_of_nil h 0 _ rfl, Option.some.injEq] at hoB hoC
  rw [← hsB] at hoB
  rw [← hsC] at hoC
  have hA₂ : (h ++ l₁ ++ [B] ++ l₂ ++ [C])[cA]? = some A := by
    have := getElem?_append_of_some ([B] ++ l₂ ++ [C]) hcA'
    simpa using this
  have hB₂ : (h ++ l₁ ++ [B] ++ l₂ ++ [C])[cB]? = some B := getElem?_append_of_some [C] hcB'
  have hC₂ : (h ++ l₁ ++ [B] ++ l₂ ++ [C])[(h ++ l₁ ++ [B] ++ l₂).length]? = some C :=
    List.getElem?_concat_length _ _
  have hrA : Error.Error (h ++ l₁ ++ [B] ++ l₂ ++ [C]) n A = some ownA := by
    rw [Error_of_nil _ n A hAErr, hoA]
  have hrB : Error.Error (h ++ l₁ ++ [B] ++ l₂ ++ [C]) (n + 1) B = some (ownB ++ "|" ++ ownA) := by
    rw [Error_of_wrapped hBErr hA₂ hrA (by rw [hoB]; exact hneB), hoB]
  rw [error_Error_record (n + 2) hC₂,
    Error_of_wrapped hCErr hB₂ hrB (by rw [hoC]; exact hneC), hoC]
  simp only [String.append_assoc]

theorem C6_three_level_chain_witness :
    ∃ (h₁ : Heap) (pB : Addr) (h₂ : Heap) (pC : Addr),
      E [{ Kind := Kind.NotExist, Msg := "no such file" }]
          ([Arg.op "read"] ++ Arg.errorPtr (some 0) :: [Arg.path "/etc/x"])
        = Outcome.ret h₁ (error.record (some pB)) ∧
      E h₁ ([Arg.op "load", Arg.str "config"] ++ Arg.errorPtr (some pB) :: [])
        = Outcome.ret h₂ (error.record (some pC)) ∧
      error.Error h₂ (0 + 2) (error.record (some pC))
        = some ("load|config" ++ "|" ++ "read|/etc/x" ++ "|" ++ "item does not exist|no such file") :=
  C6_three_level_chain [{ Kind := Kind.NotExist, Msg := "no such file" }] 0
    { Kind := Kind.NotExist, Msg := "no such file" }
    [Arg.op "read"] [Arg.path "/etc/x"] [Arg.op "load", Arg.str "config"] [] 0
    "item does not exist|no such file" "read|/etc/x" "load|config"
    (by decide) (by decide) (by decide) (by decide) (by decide) (by decide) (by decide)
    (by decide) (by decide)

/-! ## Fuel and changes of the heap -/

theorem Error_record_some {h : Heap} {n : Nat} {e : Error} {p : Option Addr} {s : String}
    (hErr : e.Err = error.record p) :
    Error.Error h n e = some s ↔
      ∃ (k : Nat) (e' : Error) (s' : String), n = k + 1 ∧ deref h p = some e' ∧
        Error.Error h k e' = some s' ∧ s = writeAll "" (ownSlots e ++ [s']) := by
  rw [Error_eq, hErr]
  constructor
  · intro hs
    cases n with
    | zero => exact Option.noConfusion hs
    | succ k =>
      simp only at hs
      cases hd : deref h p with
      | none => simp [hd] at hs
      | some e' =>
        simp only [hd, Option.map_eq_some'] at hs
        obtain ⟨s', hs', hss⟩ := hs
        exact ⟨k, e', s', rfl, rfl, hs', hss.symm⟩
  · rintro ⟨k, e', s', rfl, hd, hs', rfl⟩
    simp [hd, hs']

theorem Error_not_record {h h' : Heap} {n m : Nat} {e : Error}
    (hErr : ∀ p, e.Err ≠ error.record p) : Error.Error h n e = Error.Error h' m e := by
  rw [Error_eq h n e, Error_eq h' m e]
  cases hE : e.Err with
  | nil => rfl
  | foreign t => rfl
  | foreignPanic => rfl
  | record p => exact absurd hE (hErr p)

/-- More fuel does not change a rendering. -/
theorem Error_fuel_mono (h : Heap) : ∀ (n : Nat) (e : Error) (s : String) (m : Nat),
    Error.Error h n e = some s → n ≤ m → Error.Error h m e = some s := by
  intro n
  induction n with
  | zero =>
    intro e s m hs _
    cases hE : e.Err with
    | nil => rw [← hs]; exact Error_not_record (fun p hp => by rw [hE] at hp; exact error.noConfusion hp)
    | foreign t =>
      rw [← hs]; exact Error_not_record (fun p hp => by rw [hE] at hp; exact error.noConfusion hp)
    | foreignPanic =>
      rw [← hs]; exact Error_not_record (fun p hp => by rw [hE] at hp; exact error.noConfusion hp)
    | record p =>
      obtain ⟨k, _, _, hk, _⟩ := (Error_record_some hE).1 hs
      exact absurd hk (by omega)
  | succ k ih =>
    intro e s m hs hm
    cases hE : e.Err with
    | nil => rw [← hs]; exact Error_not_record (fun p hp => by rw [hE] at hp; exact error.noConfusion hp)
    | foreign t =>
      rw [← hs]; exact Error_not_record (fun p hp => by rw [hE] at hp; exact error.noConfusion hp)
    | foreignPanic =>
      rw [← hs]; exact Error_not_record (fun p hp => by rw [hE] at hp; exact error.noConfusion hp)
    | record p =>
      obtain ⟨k', e', s', hk, hd, hs', hss⟩ := (Error_record_some hE).1 hs
      have hkk : k' = k := by omega
      subst hkk
      obtain ⟨m', rfl⟩ : ∃ m', m = m' + 1 := ⟨m - 1, by omega⟩
      exact (Error_record_some hE).2 ⟨m', e', s', rfl, hd, ih e' s' m' hs' (by omega), hss⟩

theorem deref_set_ne {h : Heap} {x q : Addr} (X' : Error) (hq : q ≠ x) :
    deref (h.set x X') (some q) = deref h (some q) := by
  simp only [deref, Option.some_bind]
  exact List.getElem?_set_ne (Ne.symm hq)

/-- Changing the record at `x` changes the rendering of a record `e` only if the chain
of `e` passes through `x`, and then the old record at `x` renders with less fuel. -/
theorem Error_set_or (h : Heap) (x : Addr) (X X' : Error) (hX : h[x]? = some X) :
    ∀ (n : Nat) (e : Error) (s : String), Error.Error h n e = some s →
      Error.Error (h.set x X') n e = some s ∨ ∃ m s', m < n ∧ Error.Error h m X = some s' := by
  intro n
  induction n with
  | zero =>
    intro e s hs
    cases hE : e.Err with
    | nil =>
      left; rw [← hs]
      exact Error_not_record (fun p hp => by rw [hE] at hp; exact error.noConfusion hp)
    | foreign t =>
      left; rw [← hs]
      exact Error_not_record (fun p hp => by rw [hE] at hp; exact error.noConfusion hp)
    | foreignPanic =>
      left; rw [← hs]
      exact Error_not_record (fun p hp => by rw [hE] at hp; exact error.noConfusion hp)
    | record p =>
      obtain ⟨k, _, _, hk, _⟩ := (Error_record_some hE).1 hs
      exact absurd hk (by omega)
  | succ k ih =>
    intro e s hs
    cases hE : e.Err with
    | nil =>
      left; rw [← hs]
      exact Error_not_record (fun p hp => by rw [hE] at hp; exact error.noConfusion hp)
    | foreign t =>
      left; rw [← hs]
      exact Error_not_record (fun p hp => by rw [hE] at hp; exact error.noConfusion hp)
    | foreignPanic =>
      left; rw [← hs]
      exact Error_not_record (fun p hp => by rw [hE] at hp; exact error.noConfusion hp)
    | record p =>
      obtain ⟨k', e', s', hk, hd, hs', hss⟩ := (Error_record_some hE).1 hs
      have hkk : k' = k := by omega
      subst hkk
      cases p with
      | none => simp [deref] at hd
      | some q =>
        by_cases hq : q = x
        · right
          subst hq
          have hXe : e' = X := by
            simp only [deref, Option.some_bind] at hd
            rw [hX] at hd
            exact (Option.some.inj hd).symm
          rw [hXe] at hs'
          exact ⟨k', s', by omega, hs'⟩
        · rcases ih e' s' hs' with hl | ⟨m, s'', hm, hms⟩
          · left
            exact (Error_record_some hE).2
              ⟨k', e', s', rfl, by rw [deref_set_ne X' hq]; exact hd, hl, hss⟩
          · right
            exact ⟨m, s'', by omega, hms⟩

/-- A record that renders keeps its rendering when the cell it was read from is
overwritten: its chain cannot pass through that cell. -/
theorem Error_set_self (h : Heap) (x : Addr) (X X' : Error) (hX : h[x]? = some X) :
    ∀ (n : Nat) (s : String), Error.Error h n X = some s →
      Error.Error (h.set x X') n X = some s := by
  intro n
  induction n using Nat.strong_induction_on with
  | _ n ih =>
    intro s hs
    rcases Error_set_or h x X X' hX n X s hs with hl | ⟨m, s', hm, hms⟩
    · exact hl
    · have h1 := ih m hm s' hms
      have h2 := Error_fuel_mono h m X s' n hms (by omega)
      rw [hs] at h2
      rw [h2]
      exact Error_fuel_mono _ m X s' n h1 (by omega)

theorem recognized_of_isField {a : Arg} (ha : a.isField = true) : a.recognized = true := by
  cases a <;> simp_all [Arg.isField, Arg.recognized]

theorem wellFormed_of_isField (h : Heap) {a : Arg} (ha : a.isField = true) :
    a.wellFormed h = true := by
  cases a <;> simp_all [Arg.isField, Arg.wellFormed]

theorem lastErrorLike_append_cons (pre post : List Arg) (x : Arg) (hx : x.isErrorLike = true)
    (hpost : ∀ f ∈ post, f.isField = true) :
    lastErrorLike (pre ++ x :: post) = some x := by
  have hp := filter_isErrorLike_of_isField post hpost
  simp [lastErrorLike, List.filter_append, List.filter_cons, hp, hx]

theorem forall_mem_append_cons {P : Arg → Prop} {pre post : List Arg} {x : Arg}
    (hpre : ∀ a ∈ pre, P a) (hx : P x) (hpost : ∀ a ∈ post, P a) :
    ∀ a ∈ pre ++ x :: post, P a := by
  intro a ha
  rcases List.mem_append.1 ha with ha | ha
  · exact hpre a ha
  · rcases List.mem_cons.1 ha with ha | ha
    · rw [ha]; exact hx
    · exact hpost a ha

/-- C7: let the last error-like fragment of the call be a pointer to the record `X` at
address `x` (only field fragments follow it).  Then the record `E` returns wraps a record
at a new address `c`, different from `x` and from every address of the heap before the
call, that holds `X` itself, wrapped cause included as it is; `X` is still at `x`; and
whatever is written to `x` afterwards, a rendering of the returned record that returned
`s` still returns `s`.  When that fragment is a foreign error instead, the field `Err`
holds this foreign error. -/
theorem C7_copy_on_wrap (h : Heap) (pre post : List Arg)
    (hrec : ∀ a ∈ pre, a.recognized = true) (hwf : ∀ a ∈ pre, a.wellFormed h = true)
    (hpost : ∀ a ∈ post, a.isField = true) :
    (∀ (x : Nat) (X : Error), h[x]? = some X →
      ∃ (h' : Heap) (w c : Nat) (W : Error),
        E h (pre ++ Arg.errorPtr (some x) :: post) = Outcome.ret h' (error.record (some w)) ∧
        h'[w]? = some W ∧ W.Err = error.record (some c) ∧
        c ≠ x ∧ c ≠ w ∧ h.length ≤ c ∧ h'[c]? = some X ∧ h'[x]? = some X ∧
        ∀ (X' : Error) (n : Nat) (s : String),
          error.Error h' n (error.record (some w)) = some s →
          error.Error (h'.set x X') n (error.record (some w)) = some s) ∧
    (∀ t : String, ∃ (h' : Heap) (w : Addr) (W : Error),
        E h (pre ++ Arg.err t :: post) = Outcome.ret h' (error.record (some w)) ∧
        h'[w]? = some W ∧ W.Err = error.foreign t) := by
  have hrecPost : ∀ a ∈ post, a.recognized = true := fun a ha => recognized_of_isField (hpost a ha)
  have hwfPost : ∀ a ∈ post, a.wellFormed h = true :=
    fun a ha => wellFormed_of_isField h (hpost a ha)
  constructor
  · intro x X hX
    have hd : deref h (some x) = some X := by simpa [deref] using hX
    have hxlt : x < h.length := deref_lt hd
    obtain ⟨l, W, hE, _, _, _, _, _, _, _, h8⟩ :=
      E_record_spec h (pre ++ Arg.errorPtr (some x) :: post) (by simp)
        (forall_mem_append_cons hrec rfl hrecPost)
        (forall_mem_append_cons hwf (by simp [Arg.wellFormed, hd]) hwfPost)
    obtain ⟨c, Y, hc1, hc2, hc3, hc4, hc5⟩ :=
      h8 (some x) (lastErrorLike_append_cons pre post _ rfl hpost)
    rw [hd, Option.some.injEq] at hc5
    rw [← hc5] at hc4
    have hW : (h ++ l ++ [W])[(h ++ l).length]? = some W := List.getElem?_concat_length _ _
    have hcX : (h ++ l ++ [W])[c]? = some X := getElem?_append_of_some [W] hc4
    have hxX : (h ++ l ++ [W])[x]? = some X := by
      have := getElem?_append_of_some (l ++ [W]) hX
      simpa using this
    have hwx : (h ++ l).length ≠ x := by
      have : h.length ≤ (h ++ l).length := by simp
      omega
    refine ⟨h ++ l ++ [W], (h ++ l).length, c, W, hE, hW, hc1, by omega, by omega, hc2, hcX,
      hxX, ?_⟩
    intro X' n s hs
    rw [error_Error_record n hW] at hs
    have hW' : ((h ++ l ++ [W]).set x X')[(h ++ l).length]? = some W := by
      rw [List.getElem?_set_ne (Ne.symm hwx)]
      exact hW
    rw [error_Error_record n hW']
    obtain ⟨k, e', s', hk, hde, hs', hss⟩ := (Error_record_some hc1).1 hs
    have hXe : e' = X := by
      simp only [deref, Option.some_bind] at hde
      rw [hcX] at hde
      exact (Option.some.inj hde).symm
    rw [hXe] at hs'
    refine (Error_record_some hc1).2 ⟨k, X, s', hk, ?_, Error_set_self _ x X X' hxX k s' hs', hss⟩
    rw [deref_set_ne X' (by omega : c ≠ x)]
    simpa [deref] using hcX
  · intro t
    obtain ⟨l, W, hE, _, _, _, _, _, _, h7, _⟩ :=
      E_record_spec h (pre ++ Arg.err t :: post) (by simp)
        (forall_mem_append_cons hrec rfl hrecPost)
        (forall_mem_append_cons hwf rfl hwfPost)
    exact ⟨h ++ l ++ [W], (h ++ l).length, W, hE, List.getElem?_concat_length _ _,
      h7 t (lastErrorLike_append_cons pre post _ rfl hpost)⟩

theorem C7_copy_on_wrap_witness :
    ∃ (h' : Heap) (w c : Nat) (W : Error),
      E [{ Msg := "inner" }] [Arg.op "open", Arg.errorPtr (some 0), Arg.path "/tmp/x"]
        = Outcome.ret h' (error.record (some w)) ∧
      h'[w]? = some W ∧ W.Err = error.record (some c) ∧ c ≠ 0 ∧
      h'[c]? = some { Msg := "inner" } ∧
      error.Error h' 1 (error.record (some w)) = some "open|/tmp/x|inner" ∧
      error.Error (h'.set 0 { Msg := "changed" }) 1 (error.record (some w))
        = some "open|/tmp/x|inner" := by
  obtain ⟨h', w, c, W, hE, hW, hErr, hcx, _, _, hc, _, hmut⟩ :=
    (C7_copy_on_wrap [{ Msg := "inner" }] [Arg.op "open"] [Arg.path "/tmp/x"]
      (by decide) (by decide) (by decide)).1 0 { Msg := "inner" } rfl
  have hcomp : E [{ Msg := "inner" }] [Arg.op "open", Arg.errorPtr (some 0), Arg.path "/tmp/x"]
      = Outcome.ret [{ Msg := "inner" }, { Msg := "inner" },
          { Op := "open", Path := "/tmp/x", Err := error.record (some 1) }]
        (error.record (some 2)) := by decide
  have hr : error.Error h' 1 (error.record (some w)) = some "open|/tmp/x|inner" := by
    have hE' : E [{ Msg := "inner" }] [Arg.op "open", Arg.errorPtr (some 0), Arg.path "/tmp/x"]
        = Outcome.ret h' (error.record (some w)) := hE
    rw [hcomp] at hE'
    injection hE' with h1 h2
    injection h2 with h2
    injection h2 with h2
    subst h1 h2
    decide
  exact ⟨h', w, c, W, hE, hW, hErr, hcx, hc, hr, hmut _ 1 _ hr⟩

/-! ## Operation, path and kind -/

theorem lastOf_perm_singleton {α : Type} (f : Arg → Option α) {args l : List Arg} {v : α}
    (hperm : args.Perm l) (hl : l.filterMap f = [v]) : lastOf f args = some v := by
  have h1 : (args.filterMap f).Perm [v] := hl ▸ hperm.filterMap f
  rw [lastOf, List.perm_singleton.1 h1]
  rfl

theorem lastOf_perm_nil {α : Type} (f : Arg → Option α) {args l : List Arg}
    (hperm : args.Perm l) (hl : l.filterMap f = []) : lastOf f args = none := by
  have h1 : (args.filterMap f).Perm [] := hl ▸ hperm.filterMap f
  rw [lastOf, List.perm_nil.1 h1]
  rfl

theorem writeAll_three (a b c : String) (ha : a ≠ "") :
    writeAll "" [a, b, c] = a ++ "|" ++ b ++ "|" ++ c := by
  have hab : a ++ "|" ++ b ≠ "" := by
    rw [String.append_assoc]
    exact append_ne_empty _ ha
  simp only [writeAll, List.foldl_cons, List.foldl_nil, pad_empty, String.empty_append,
    pad_of_ne "|" ha, pad_of_ne "|" hab]

/-- `E` on the three fragments operation `o`, path `p`, kind `k`, in any order. -/
theorem E_op_path_kind (h : Heap) (n : Nat) (args : List Arg) (o p : String) (k : Kind)
    (ho : o ≠ "") (hp : p ≠ "") (hk : k ≠ Kind.Other)
    (hperm : args.Perm [Arg.op o, Arg.path p, Arg.kind k]) :
    ∃ (h' : Heap) (a : Addr), E h args = Outcome.ret h' (error.record (some a)) ∧
      error.Error h' n (error.record (some a))
        = some (o ++ "|" ++ p ++ "|" ++ Kind.String k) := by
  have hfield : ∀ a ∈ args, a.isField = true := by
    intro a ha
    have hmem := hperm.mem_iff.1 ha
    simp only [List.mem_cons, List.mem_singleton, List.not_mem_nil, or_false] at hmem
    rcases hmem with rfl | rfl | rfl <;> rfl
  have hne : args ≠ [] := by
    intro h0
    rw [h0] at hperm
    exact absurd hperm.length_eq (by simp)
  obtain ⟨l, e, hE, h1, h2, h3, h4, h5, h6, _, _⟩ :=
    E_record_spec h args hne (fun a ha => recognized_of_isField (hfield a ha))
      (fun a ha => wellFormed_of_isField h (hfield a ha))
  have e1 : lastOf Arg.asPath args = some p := lastOf_perm_singleton Arg.asPath hperm rfl
  have e2 : lastOf Arg.asOp args = some o := lastOf_perm_singleton Arg.asOp hperm rfl
  have e3 : lastOf Arg.asKind args = some k := lastOf_perm_singleton Arg.asKind hperm rfl
  have e4 : lastOf Arg.asMsg args = none := lastOf_perm_nil Arg.asMsg hperm rfl
  have e5 : lastOf Arg.asRef args = none := lastOf_perm_nil Arg.asRef hperm rfl
  rw [e1] at h1
  rw [e2] at h2
  rw [e3] at h3
  rw [e4] at h4
  rw [e5] at h5
  simp only [Option.getD_some, Option.getD_none] at h1 h2 h3 h4 h5
  have hErr : e.Err = error.nil := by
    apply h6
    have hf := filter_isErrorLike_of_isField args hfield
    rw [lastErrorLike, hf]
    rfl
  refine ⟨_, _, hE, ?_⟩
  rw [error_Error_record n (List.getElem?_concat_length _ _), Error_of_nil _ n e hErr]
  have hk0 : ¬ k = 0 := hk
  have hslots : ownSlots e = [o, p, Kind.String k] := by
    simp [ownSlots, h1, h2, h3, h4, h5, ho, hp, hk0]
  rw [hslots, writeAll_three o p _ ho]

/-- C8: for non-empty `o` and `p` and a kind `k` other than `Other`, `E` called with
exactly the fragments `Op(o)`, `Path(p)` and `k`, in any order, returns a record whose
`Error()` is `o ++ "|" ++ p ++ "|" ++ k.String()`; for `open`, `/tmp/x` and `NotExist`
this is `open|/tmp/x|item does not exist`. -/
theorem C8_op_path_kind (h : Heap) (n : Nat) (args : List Arg) :
    (∀ (o p : String) (k : Kind), o ≠ "" → p ≠ "" → k ≠ Kind.Other →
      args.Perm [Arg.op o, Arg.path p, Arg.kind k] →
      ∃ (h' : Heap) (a : Addr), E h args = Outcome.ret h' (error.record (some a)) ∧
        error.Error h' n (error.record (some a))
          = some (o ++ "|" ++ p ++ "|" ++ Kind.String k)) ∧
    (args.Perm [Arg.op "open", Arg.path "/tmp/x", Arg.kind Kind.NotExist] →
      ∃ (h' : Heap) (a : Addr), E h args = Outcome.ret h' (error.record (some a)) ∧
        error.Error h' n (error.record (some a)) = some "open|/tmp/x|item does not exist") :=
  ⟨fun o p k ho hp hk hperm => E_op_path_kind h n args o p k ho hp hk hperm,
   fun hperm => E_op_path_kind h n args "open" "/tmp/x" Kind.NotExist (by decide) (by decide)
     (by decide) hperm⟩

theorem C8_op_path_kind_witness :
    ∃ (h' : Heap) (a : Addr),
      E [] [Arg.kind Kind.NotExist, Arg.op "open", Arg.path "/tmp/x"]
        = Outcome.ret h' (error.record (some a)) ∧
      error.Error h' 0 (error.record (some a)) = some "open|/tmp/x|item does not exist" :=
  (C8_op_path_kind [] 0 [Arg.kind Kind.NotExist, Arg.op "open", Arg.path "/tmp/x"]).2
    (by decide)

/-! ## The reference slot and single fields -/

/-- C9: a record with only the reference set renders as the empty string, not as the
reference: the reference slot writes the message.  With message `boom` and reference
`r-17` the rendering is `boom|boom`; the same holds for the records `E` builds. -/
theorem C9_ref_slot_writes_msg :
    (∀ (h : Heap) (n : Nat) (r : Ref), Error.Error h n { Ref := r } = some "") ∧
    Error.Error [] 0 { Ref := "r-17" } ≠ some "r-17" ∧
    Error.Error [] 0 { Msg := "boom", Ref := "r-17" } = some "boom|boom" ∧
    E [] [Arg.ref "r-17"] = Outcome.ret [{ Ref := "r-17" }] (error.record (some 0)) ∧
    error.Error [{ Ref := "r-17" }] 0 (error.record (some 0)) = some "" := by
  refine ⟨?_, by decide, by decide, by decide, by decide⟩
  intro h n r
  rw [Error_of_nil h n _ rfl]
  by_cases hr : r = "" <;> simp [ownSlots, hr, writeAll, pad_empty]

theorem writeAll_single (x : String) : writeAll "" [x] = x := by
  simp [writeAll, pad_empty]

/-- C10: a record with neither reference nor wrapped cause in which only the operation,
only the path, only the kind or only the message is set renders as the text of this field
alone, and as the empty string when none of the four is set. -/
theorem C10_single_field (h : Heap) (n : Nat) (e : Error)
    (hRef : e.Ref = "") (hErr : e.Err = error.nil) :
    (e.Path = "" → e.Kind = Kind.Other → e.Msg = "" → Error.Error h n e = some e.Op) ∧
    (e.Op = "" → e.Kind = Kind.Other → e.Msg = "" → Error.Error h n e = some e.Path) ∧
    (e.Op = "" → e.Path = "" → e.Kind ≠ Kind.Other → e.Msg = "" →
      Error.Error h n e = some (Kind.String e.Kind)) ∧
    (e.Op = "" → e.Path = "" → e.Kind = Kind.Other → Error.Error h n e = some e.Msg) ∧
    (e.Op = "" → e.Path = "" → e.Kind = Kind.Other → e.Msg = "" →
      Error.Error h n e = some "") := by
  rw [Error_of_nil h n e hErr]
  refine ⟨?_, ?_, ?_, ?_, ?_⟩
  · intro hPath hKind hMsg
    by_cases hOp : e.Op = ""
    · simp [ownSlots, hRef, hPath, hKind, hMsg, hOp, writeAll]
    · simp [ownSlots, hRef, hPath, hKind, hMsg, hOp, writeAll_single]
  · intro hOp hKind hMsg
    by_cases hPath : e.Path = ""
    · simp [ownSlots, hRef, hPath, hKind, hMsg, hOp, writeAll]
    · simp [ownSlots, hRef, hPath, hKind, hMsg, hOp, writeAll_single]
  · intro hOp hPath hKind hMsg
    have hk0 : ¬ e.Kind = 0 := hKind
    simp [ownSlots, hRef, hPath, hk0, hMsg, hOp, writeAll_single]
  · intro hOp hPath hKind
    by_cases hMsg : e.Msg = ""
    · simp [ownSlots, hRef, hPath, hKind, hMsg, hOp, writeAll]
    · simp [ownSlots, hRef, hPath, hKind, hMsg, hOp, writeAll_single]
  · intro hOp hPath hKind hMsg
    simp [ownSlots, hRef, hPath, hKind, hMsg, hOp, writeAll]

theorem C10_single_field_witness :
    Error.Error [] 0 { Msg := "boom" } = some "boom" ∧
    Error.Error [] 0 { Kind := Kind.Permission } = some "permission denied" ∧
    Error.Error [] 0 {} = some "" :=
  ⟨(C10_single_field [] 0 { Msg := "boom" } rfl rfl).2.2.2.1 rfl rfl rfl,
   (C10_single_field [] 0 { Kind := Kind.Permission } rfl rfl).2.2.1 rfl rfl (by decide) rfl,
   (C10_single_field [] 0 {} rfl rfl).2.2.2.2 rfl rfl rfl rfl⟩

/-! ## Panics and unrecognized fragments -/

/-- The loop of `E` on fragments whose `*Error` pointers point to records returns a
non-nil error: there is no panic, whatever the types of the other fragments. -/
theorem E_loop_returns (h : Heap) (args : List Arg)
    (hptr : ∀ p, Arg.errorPtr p ∈ args → (deref h p).isSome = true) :
    ∀ (e : Error) (l : List Error), ∃ (l' : List Error) (v : error),
      E.loop e (h ++ l) args = Outcome.ret (h ++ l ++ l') v ∧ v ≠ error.nil := by
  induction args with
  | nil =>
    intro e l
    exact ⟨[e], error.record (some (h ++ l).length), by simp [E.loop],
      fun hv => error.noConfusion hv⟩
  | cons a rest ih =>
    have hptr' : ∀ p, Arg.errorPtr p ∈ rest → (deref h p).isSome = true :=
      fun p hp => hptr p (List.mem_cons_of_mem _ hp)
    intro e l
    cases a with
    | path v => simpa only [E.loop] using ih hptr' { e with Path := v } l
    | op v => simpa only [E.loop] using ih hptr' { e with Op := v } l
    | kind v => simpa only [E.loop] using ih hptr' { e with Kind := v } l
    | str v => simpa only [E.loop] using ih hptr' { e with Msg := v } l
    | ref v => simpa only [E.loop] using ih hptr' { e with Ref := v } l
    | err t => simpa only [E.loop] using ih hptr' { e with Err := error.foreign t } l
    | errPanic => simpa only [E.loop] using ih hptr' { e with Err := error.foreignPanic } l
    | errorPtr p =>
      obtain ⟨cp, hcp⟩ := Option.isSome_iff_exists.1 (hptr p (List.mem_cons_self _ _))
      obtain ⟨l', v, hE, hv⟩ :=
        ih hptr' { e with Err := error.record (some (h ++ l).length) } (l ++ [cp])
      refine ⟨cp :: l', v, ?_, hv⟩
      rw [E.loop, deref_append l hcp]
      simpa using hE
    | other ty v =>
      exact ⟨[], error.foreign ("unknown type: " ++ ty ++ ", value: " ++ v), by simp [E.loop],
        fun hv => error.noConfusion hv⟩

/-- C3: `E` called with the single fragment `(*Error)(nil)`, a non-empty list, panics on
the dereference `cp := *arg`, and so does a call in which a nil `*Error` comes before a
fragment of an unrecognized type.  The empty call panics with the message of the source;
a non-empty call in which every `*Error` fragment points to a record does not panic and
returns a non-nil error, whatever the types of the other fragments. -/
theorem C3_E_nil_pointer_panics :
    ([Arg.errorPtr none] ≠ [] ∧
      E [] [Arg.errorPtr none]
        = Outcome.panic "runtime error: invalid memory address or nil pointer dereference") ∧
    E [] [Arg.op "open", Arg.errorPtr none, Arg.other "int" "42"]
      = Outcome.panic "runtime error: invalid memory address or nil pointer dereference" ∧
    (∀ h : Heap, E h [] = Outcome.panic "errors.E call without arguments") ∧
    (∀ (h : Heap) (args : List Arg), args ≠ [] → (∀ a ∈ args, a.wellFormed h = true) →
      ∃ (h' : Heap) (v : error), E h args = Outcome.ret h' v ∧ v ≠ error.nil) := by
  refine ⟨by decide, by decide, fun h => rfl, ?_⟩
  intro h args hne hwf
  obtain ⟨l', v, hE, hv⟩ := E_loop_returns h args (wellFormed_ptr hwf) {} []
  have hlen : args.length ≠ 0 := fun h0 => hne (List.length_eq_zero.1 h0)
  simp only [List.append_nil] at hE
  refine ⟨h ++ l', v, ?_, hv⟩
  rw [E, if_neg hlen]
  exact hE

/-- The loop of `E` stops at the first fragment of an unrecognized type. -/
theorem E_loop_other (h : Heap) (pre post : List Arg) (type value : String)
    (hrec : ∀ a ∈ pre, a.recognized = true)
    (hptr : ∀ p, Arg.errorPtr p ∈ pre → (deref h p).isSome = true) :
    ∀ (e : Error) (l : List Error), ∃ l' : List Error,
      E.loop e (h ++ l) (pre ++ Arg.other type value :: post)
        = Outcome.ret (h ++ l ++ l')
            (error.foreign ("unknown type: " ++ type ++ ", value: " ++ value)) := by
  induction pre with
  | nil =>
    intro e l
    exact ⟨[], by simp [E.loop]⟩
  | cons a rest ih =>
    have hrec' : ∀ a ∈ rest, a.recognized = true := fun x hx => hrec x (List.mem_cons_of_mem _ hx)
    have hptr' : ∀ p, Arg.errorPtr p ∈ rest → (deref h p).isSome = true :=
      fun p hp => hptr p (List.mem_cons_of_mem _ hp)
    intro e l
    cases a with
    | path v => simpa only [List.cons_append, E.loop] using ih hrec' hptr' { e with Path := v } l
    | op v => simpa only [List.cons_append, E.loop] using ih hrec' hptr' { e with Op := v } l
    | kind v => simpa only [List.cons_append, E.loop] using ih hrec' hptr' { e with Kind := v } l
    | str v => simpa only [List.cons_append, E.loop] using ih hrec' hptr' { e with Msg := v } l
    | ref v => simpa only [List.cons_append, E.loop] using ih hrec' hptr' { e with Ref := v } l
    | err t =>
      simpa only [List.cons_append, E.loop] using
        ih hrec' hptr' { e with Err := error.foreign t } l
    | errPanic =>
      simpa only [List.cons_append, E.loop] using
        ih hrec' hptr' { e with Err := error.foreignPanic } l
    | errorPtr p =>
      obtain ⟨cp, hcp⟩ := Option.isSome_iff_exists.1 (hptr p (List.mem_cons_self _ _))
      obtain ⟨l', hE⟩ :=
        ih hrec' hptr' { e with Err := error.record (some (h ++ l).length) } (l ++ [cp])
      refine ⟨cp :: l', ?_⟩
      rw [List.cons_append, E.loop, deref_append l hcp]
      simpa using hE
    | other ty v => exact absurd (hrec _ (List.mem_cons_self _ _)) (by simp [Arg.recognized])

/-- C4: `E` called with `Op("open")`, the nil `*Error` and the integer 42, a list that
contains a fragment of an unrecognized type, panics on the dereference `cp := *arg`
before it comes to 42 and returns no error.  When the fragments before the first
fragment of an unrecognized type are recognized and each `*Error` among them points to a
record, `E` returns, whatever they are and whatever follows, a non-nil generic error,
not a record, whose `Error()` text is `unknown type: <type>, value: <value>` for this
first unrecognized fragment. -/
theorem C4_nil_fragment_before_unknown :
    (Arg.other "int" "42" ∈ [Arg.op "open", Arg.errorPtr none, Arg.other "int" "42"] ∧
      (Arg.other "int" "42").recognized = false ∧
      E [] [Arg.op "open", Arg.errorPtr none, Arg.other "int" "42"]
        = Outcome.panic "runtime error: invalid memory address or nil pointer dereference") ∧
    (∀ (h : Heap) (pre post : List Arg) (type value : String),
      (∀ a ∈ pre, a.recognized = true) → (∀ a ∈ pre, a.wellFormed h = true) →
      ∃ (h' : Heap) (g : error),
        E h (pre ++ Arg.other type value :: post) = Outcome.ret h' g ∧
        (∃ l, h' = h ++ l) ∧ g ≠ error.nil ∧ (∀ p, g ≠ error.record p) ∧
        ∀ n, error.Error h' n g = some ("unknown type: " ++ type ++ ", value: " ++ value)) := by
  refine ⟨by decide, ?_⟩
  intro h pre post type value hrec hwf
  obtain ⟨l', hE⟩ := E_loop_other h pre post type value hrec (wellFormed_ptr hwf) {} []
  simp only [List.append_nil] at hE
  refine ⟨h ++ l', error.foreign ("unknown type: " ++ type ++ ", value: " ++ value), ?_,
    ⟨l', rfl⟩, fun hg => error.noConfusion hg, fun p hg => error.noConfusion hg, fun n => rfl⟩
  have hlen : (pre ++ Arg.other type value :: post).length ≠ 0 := by simp
  rw [E, if_neg hlen]
  exact hE

/-! ## The kinds and their descriptions -/

/-- C12: for every kind value from 12 to 255, outside the assigned range, `String()`
returns `unknown error kind`, and for no value of the assigned range 0 to 11 does it
return this text. -/
theorem C12_String_fallback :
    (∀ k : Kind, 12 ≤ k → k < 256 → Kind.String k = "unknown error kind") ∧
    (∀ k : Kind, k ≤ 11 → Kind.String k ≠ "unknown error kind") := by
  constructor
  · intro k hk _
    have hk' : @LE.le Nat _ 12 k := hk
    have hne : ∀ c : Nat, c < 12 → ¬ k = c := fun c hc hkc => by
      have hkc' : @Eq Nat k c := hkc
      omega
    unfold Kind.String
    rw [if_neg (hne 0 (by decide)), if_neg (hne 1 (by decide)), if_neg (hne 2 (by decide)),
      if_neg (hne 3 (by decide)), if_neg (hne 4 (by decide)), if_neg (hne 5 (by decide)),
      if_neg (hne 6 (by decide)), if_neg (hne 7 (by decide)), if_neg (hne 8 (by decide)),
      if_neg (hne 9 (by decide)), if_neg (hne 10 (by decide)), if_neg (hne 11 (by decide))]
  · intro k hk
    have hlt : @LT.lt Nat _ k 12 := Nat.lt_succ_of_le hk
    revert k
    decide

/-- C13: the kinds are numbered from zero in the order of the declaration, `Other` = 0 to
`BrokenLink` = 11, all within `uint8`, and the kind of the zero record, and of a record
`E` builds from fragments without a kind, is `Other`. -/
theorem C13_Kind_encoding :
    [Kind.Other, Kind.Invalid, Kind.Permission, Kind.IO, Kind.Exists, Kind.NotExist,
      Kind.IsDir, Kind.NotDir, Kind.NotEmpty, Kind.Private, Kind.Internal, Kind.BrokenLink]
      = List.range 12 ∧
    Kind.BrokenLink < 256 ∧
    ({} : Error).Kind = Kind.Other ∧
    E [] [Arg.op "open"] = Outcome.ret [{ Op := "open", Kind := Kind.Other }]
      (error.record (some 0)) := by
  decide

/-- C16: the description `String()` returns for `IsDir` is `item is a directoy`, not
`item is a directory`. -/
theorem C16_IsDir_description :
    Kind.String Kind.IsDir = "item is a directoy" ∧
    Kind.String Kind.IsDir ≠ "item is a directory" ∧
    Kind.String Kind.NotDir = "item is not a directory" := by
  decide

/-- C19: `String()` is injective on the twelve defined kinds, and every text it returns,
the fallback included, is non-empty. -/
theorem C19_String_injective :
    (∀ k₁ k₂ : Kind, k₁ ≤ 11 → k₂ ≤ 11 → Kind.String k₁ = Kind.String k₂ → k₁ = k₂) ∧
    (∀ k : Kind, Kind.String k ≠ "") := by
  refine ⟨?_, Kind.String_ne_empty⟩
  have hall : ∀ k₁ : Nat, k₁ < 12 → ∀ k₂ : Nat, k₂ < 12 →
      Kind.String k₁ = Kind.String k₂ → k₁ = k₂ := by decide
  intro k₁ k₂ h₁ h₂
  exact hall k₁ (Nat.lt_succ_of_le h₁) k₂ (Nat.lt_succ_of_le h₂)

/-! ## The reference slot, and wrapping alone -/

/-- C17: the rendering of a record with a non-empty reference is the same for every other
non-empty reference: the reference slot writes the message.  With no wrapped cause the
rendering is that of the record without reference, then the separator if that is not
empty, then the message once more. -/
theorem C17_ref_only_through_nonempty (h : Heap) (n : Nat) (e : Error) (r₁ r₂ : Ref)
    (h₁ : r₁ ≠ "") (h₂ : r₂ ≠ "") :
    Error.Error h n { e with Ref := r₁ } = Error.Error h n { e with Ref := r₂ } ∧
    ∃ own : String,
      Error.Error h n { e with Ref := "", Err := error.nil } = some own ∧
      Error.Error h n { e with Ref := r₁, Err := error.nil }
        = some (if own = "" then e.Msg else own ++ "|" ++ e.Msg) := by
  have hs : ownSlots { e with Ref := r₁ } = ownSlots { e with Ref := r₂ } := by
    simp [ownSlots, h₁, h₂]
  constructor
  · rw [Error_eq h n { e with Ref := r₁ }, Error_eq h n { e with Ref := r₂ }, hs]
  · refine ⟨writeAll "" (ownSlots { e with Ref := "", Err := error.nil }),
      Error_of_nil h n _ rfl, ?_⟩
    rw [Error_of_nil h n _ rfl]
    have hsnoc : ownSlots { e with Ref := r₁, Err := error.nil }
        = ownSlots { e with Ref := "", Err := error.nil } ++ [e.Msg] := by
      simp [ownSlots, h₁]
    rw [hsnoc, writeAll_snoc]
    by_cases hown : writeAll "" (ownSlots { e with Ref := "", Err := error.nil }) = ""
    · rw [if_pos hown, hown, pad_empty, String.empty_append]
    · rw [if_neg hown, pad_of_ne "|" hown]

theorem C17_ref_only_through_nonempty_witness :
    Error.Error [] 0 { Msg := "boom", Ref := "r-17" }
      = Error.Error [] 0 { Msg := "boom", Ref := "another" } ∧
    Error.Error [] 0 { Msg := "boom", Ref := "r-17" } = some "boom|boom" ∧
    Error.Error [] 0 { Op := "open", Ref := "r-17" } = some "open|" := by
  have hw := C17_ref_only_through_nonempty [] 0 { Msg := "boom" } "r-17" "another"
    (by decide) (by decide)
  exact ⟨hw.1, by decide, by decide⟩

theorem Error_append (h : Heap) (l : List Error) : ∀ (n : Nat) (e : Error) (s : String),
    Error.Error h n e = some s → Error.Error (h ++ l) n e = some s := by
  intro n
  induction n with
  | zero =>
    intro e s hs
    cases hE : e.Err with
    | nil =>
      rw [← hs]
      exact Error_not_record (fun p hp => by rw [hE] at hp; exact error.noConfusion hp)
    | foreign t =>
      rw [← hs]
      exact Error_not_record (fun p hp => by rw [hE] at hp; exact error.noConfusion hp)
    | foreignPanic =>
      rw [← hs]
      exact Error_not_record (fun p hp => by rw [hE] at hp; exact error.noConfusion hp)
    | record p =>
      obtain ⟨k, _, _, hk, _⟩ := (Error_record_some hE).1 hs
      exact absurd hk (by omega)
  | succ k ih =>
    intro e s hs
    cases hE : e.Err with
    | nil =>
      rw [← hs]
      exact Error_not_record (fun p hp => by rw [hE] at hp; exact error.noConfusion hp)
    | foreign t =>
      rw [← hs]
      exact Error_not_record (fun p hp => by rw [hE] at hp; exact error.noConfusion hp)
    | foreignPanic =>
      rw [← hs]
      exact Error_not_record (fun p hp => by rw [hE] at hp; exact error.noConfusion hp)
    | record p =>
      obtain ⟨k', e', s', hk, hd, hs', hss⟩ := (Error_record_some hE).1 hs
      have hkk : k' = k := by omega
      subst hkk
      exact (Error_record_some hE).2 ⟨k', e', s', rfl, deref_append l hd, ih e' s' hs', hss⟩

/-- C18: for a record `X` of the heap, `E` called with the pointer to `X` alone returns a
record whose rendering, with one more unit of fuel, is the rendering of `X`: the same
result in the heap after the call, and the string `X` rendered to before the call. -/
theorem C18_wrap_alone_transparent (h : Heap) (x : Nat) (X : Error) (n : Nat)
    (hX : h[x]? = some X) :
    ∃ (h' : Heap) (w : Addr),
      E h [Arg.errorPtr (some x)] = Outcome.ret h' (error.record (some w)) ∧
      h'[x]? = some X ∧
      error.Error h' (n + 1) (error.record (some w)) = Error.Error h' n X ∧
      ∀ s, Error.Error h n X = some s →
        error.Error h' (n + 1) (error.record (some w)) = some s := by
  have hE : E h [Arg.errorPtr (some x)]
      = Outcome.ret (h ++ [X] ++ [{ Err := error.record (some h.length) }])
          (error.record (some (h ++ [X]).length)) := by
    simp [E, E.loop, deref, hX]
  have hW : (h ++ [X] ++ [{ Err := error.record (some h.length) }])[(h ++ [X]).length]?
      = some { Err := error.record (some h.length) } := List.getElem?_concat_length _ _
  have hc : (h ++ [X] ++ [{ Err := error.record (some h.length) }])[h.length]? = some X :=
    getElem?_append_of_some _ (List.getElem?_concat_length h X)
  have hx : (h ++ [X] ++ [{ Err := error.record (some h.length) }])[x]? = some X := by
    have := getElem?_append_of_some ([X] ++ [{ Err := error.record (some h.length) }]) hX
    simpa using this
  have hrender : error.Error (h ++ [X] ++ [{ Err := error.record (some h.length) }]) (n + 1)
      (error.record (some (h ++ [X]).length))
      = Error.Error (h ++ [X] ++ [{ Err := error.record (some h.length) }]) n X := by
    rw [error_Error_record (n + 1) hW, Error_eq]
    have hd : deref (h ++ [X] ++ [{ Err := error.record (some h.length) }]) (some h.length)
        = some X := by simpa [deref] using hc
    simp only [hd]
    cases hr : Error.Error (h ++ [X] ++ [{ Err := error.record (some h.length) }]) n X with
    | none => rfl
    | some s => simp [ownSlots, writeAll_single]
  refine ⟨_, _, hE, hx, hrender, ?_⟩
  intro s hs
  rw [hrender]
  have := Error_append h ([X] ++ [{ Err := error.record (some h.length) }]) n X s hs
  simpa using this

theorem C18_wrap_alone_transparent_witness :
    ∃ (h' : Heap) (w : Addr),
      E [{ Op := "read", Kind := Kind.IO, Msg := "disk" }] [Arg.errorPtr (some 0)]
        = Outcome.ret h' (error.record (some w)) ∧
      h'[0]? = some { Op := "read", Kind := Kind.IO, Msg := "disk" } ∧
      error.Error h' 1 (error.record (some w)) = some "read|I/O error|disk" := by
  obtain ⟨h', w, hE, hx, _, hs⟩ := C18_wrap_alone_transparent
    [{ Op := "read", Kind := Kind.IO, Msg := "disk" }] 0
    { Op := "read", Kind := Kind.IO, Msg := "disk" } 0 rfl
  exact ⟨h', w, hE, hx, hs "read|I/O error|disk" (by decide)⟩

/-! ## Order of the fragments -/

theorem E_loop_swap (x y : Arg) (l : List Arg) (hx : x.recognized = true)
    (hy : y.recognized = true) (hxy : x.target ≠ y.target) (e : Error) (h : Heap) :
    E.loop e h (y :: x :: l) = E.loop e h (x :: y :: l) := by
  cases x <;> cases y <;>
    first
    | rfl
    | exact absurd rfl hxy
    | exact Bool.noConfusion hx
    | exact Bool.noConfusion hy

theorem E_loop_cons_congr (x : Arg) {l₁ l₂ : List Arg}
    (hl : ∀ (e : Error) (h : Heap), E.loop e h l₁ = E.loop e h l₂) (e : Error) (h : Heap) :
    E.loop e h (x :: l₁) = E.loop e h (x :: l₂) := by
  cases x with
  | path v => simp only [E.loop, hl]
  | op v => simp only [E.loop, hl]
  | kind v => simp only [E.loop, hl]
  | str v => simp only [E.loop, hl]
  | ref v => simp only [E.loop, hl]
  | err t => simp only [E.loop, hl]
  | errPanic => simp only [E.loop, hl]
  | errorPtr p => simp only [E.loop, hl]
  | other ty v => simp only [E.loop]

/-- The loop of `E` gives the same outcome on two lists of recognized fragments that are
permutations of one another, when no two fragments are assigned to the same field. -/
theorem E_loop_perm {l₁ l₂ : List Arg} (hperm : l₁.Perm l₂) :
    (∀ a ∈ l₁, a.recognized = true) → (l₁.map Arg.target).Nodup →
    ∀ (e : Error) (h : Heap), E.loop e h l₁ = E.loop e h l₂ := by
  induction hperm with
  | nil => intro _ _ e h; rfl
  | cons x _ ih =>
    intro hrec hnd e h
    exact E_loop_cons_congr x
      (ih (fun a ha => hrec a (List.mem_cons_of_mem _ ha)) (List.nodup_cons.1 hnd).2) e h
  | swap x y l =>
    intro hrec hnd e h
    have hy : y.recognized = true := hrec y (List.mem_cons_self _ _)
    have hx : x.recognized = true := hrec x (List.mem_cons_of_mem _ (List.mem_cons_self _ _))
    have hxy : x.target ≠ y.target := by
      intro heq
      simp only [List.map_cons, List.nodup_cons, List.mem_cons] at hnd
      exact hnd.1 (Or.inl heq.symm)
    exact E_loop_swap x y l hx hy hxy e h
  | trans p₁ _ ih₁ ih₂ =>
    intro hrec hnd e h
    rw [ih₁ hrec hnd e h]
    exact ih₂ (fun a ha => hrec a (p₁.mem_iff.2 ha))
      ((p₁.map Arg.target).nodup_iff.1 hnd) e h

/-- An error record and a foreign error are fragments of two different types, both
assigned to `Err`: in the heap holding the record `inner`, the lists `[X, EOF]` and
`[EOF, X]` are permutations of one another without two fragments of the same type, and
`E` returns a record wrapping the foreign error for the first and a record wrapping the
copy of `X` for the second. -/
theorem C11_counterexample :
    [Arg.errorPtr (some 0), Arg.err "EOF"].Perm [Arg.err "EOF", Arg.errorPtr (some 0)] ∧
    (∀ a ∈ [Arg.errorPtr (some 0), Arg.err "EOF"], a.recognized = true) ∧
    ([Arg.errorPtr (some 0), Arg.err "EOF"].map Arg.fragmentType).Nodup ∧
    E [{ Msg := "inner" }] [Arg.errorPtr (some 0), Arg.err "EOF"]
      = Outcome.ret [{ Msg := "inner" }, { Msg := "inner" }, { Err := error.foreign "EOF" }]
          (error.record (some 2)) ∧
    E [{ Msg := "inner" }] [Arg.err "EOF", Arg.errorPtr (some 0)]
      = Outcome.ret [{ Msg := "inner" }, { Msg := "inner" }, { Err := error.record (some 1) }]
          (error.record (some 2)) ∧
    E [{ Msg := "inner" }] [Arg.errorPtr (some 0), Arg.err "EOF"]
      ≠ E [{ Msg := "inner" }] [Arg.err "EOF", Arg.errorPtr (some 0)] ∧
    error.Error [{ Msg := "inner" }, { Msg := "inner" }, { Err := error.foreign "EOF" }] 1
      (error.record (some 2)) = some "EOF" ∧
    error.Error [{ Msg := "inner" }, { Msg := "inner" }, { Err := error.record (some 1) }] 1
      (error.record (some 2)) = some "inner" := by
  decide

/-- C11, amended: for two lists of recognized fragments that are permutations of one
another and in which no two fragments are assigned to the same field (an error record
and a foreign error are both assigned to `Err`), `E` has the same outcome, heap
included; when the lists are not empty and every `*Error` fragment points to a record,
this outcome is one and the same record. -/
theorem C11_E_permutation (h : Heap) (l₁ l₂ : List Arg) (hperm : l₁.Perm l₂)
    (hrec : ∀ a ∈ l₁, a.recognized = true) (hnd : (l₁.map Arg.target).Nodup) :
    E h l₁ = E h l₂ ∧
    (l₁ ≠ [] → (∀ a ∈ l₁, a.wellFormed h = true) →
      ∃ (h' : Heap) (a : Addr) (e : Error),
        E h l₁ = Outcome.ret h' (error.record (some a)) ∧
        E h l₂ = Outcome.ret h' (error.record (some a)) ∧ h'[a]? = some e) := by
  have heq : E h l₁ = E h l₂ := by
    unfold E
    rw [hperm.length_eq, E_loop_perm hperm hrec hnd {} h]
  refine ⟨heq, ?_⟩
  intro hne hwf
  obtain ⟨l, e, hE, _⟩ := E_record_spec h l₁ hne hrec hwf
  exact ⟨_, _, e, hE, heq ▸ hE, List.getElem?_concat_length _ _⟩

theorem C11_E_permutation_witness :
    E [{ Msg := "inner" }] [Arg.op "open", Arg.errorPtr (some 0), Arg.kind Kind.IO]
      = E [{ Msg := "inner" }] [Arg.kind Kind.IO, Arg.op "open", Arg.errorPtr (some 0)] ∧
    E [{ Msg := "inner" }] [Arg.op "open", Arg.errorPtr (some 0), Arg.kind Kind.IO]
      = Outcome.ret [{ Msg := "inner" }, { Msg := "inner" },
          { Op := "open", Kind := Kind.IO, Err := error.record (some 1) }]
        (error.record (some 2)) :=
  ⟨(C11_E_permutation [{ Msg := "inner" }]
      [Arg.op "open", Arg.errorPtr (some 0), Arg.kind Kind.IO]
      [Arg.kind Kind.IO, Arg.op "open", Arg.errorPtr (some 0)]
      (by decide) (by decide) (by decide)).1, by decide⟩

/-! ## The kind `Other` -/

/-- The empty fragment list contains no `Kind` fragment; `E` panics on it and, once the
fragment `Other` is inserted, returns a record: there is no record built without it. -/
theorem C14_counterexample :
    (∀ a ∈ ([] : List Arg), a.asKind = none) ∧
    E [] [] = Outcome.panic "errors.E call without arguments" ∧
    E [] ([] ++ Arg.kind Kind.Other :: []) = Outcome.ret [{}] (error.record (some 0)) := by
  decide

theorem E_loop_insert_Other (pre post : List Arg) (hnk : ∀ a ∈ pre, a.asKind = none) :
    ∀ (e : Error) (h : Heap), e.Kind = Kind.Other →
      E.loop e h (pre ++ Arg.kind Kind.Other :: post) = E.loop e h (pre ++ post) := by
  induction pre with
  | nil =>
    intro e h he
    have hee : { e with Kind := Kind.Other } = e := by
      cases e
      simp only [Error.mk.injEq, true_and, and_true]
      exact he.symm
    simp only [List.nil_append, E.loop, hee]
  | cons a rest ih =>
    have hnk' : ∀ a ∈ rest, a.asKind = none := fun x hx => hnk x (List.mem_cons_of_mem _ hx)
    intro e h he
    cases a with
    | path v => exact ih hnk' { e with Path := v } h he
    | op v => exact ih hnk' { e with Op := v } h he
    | kind v => exact absurd (hnk _ (List.mem_cons_self _ _)) (by simp [Arg.asKind])
    | str v => exact ih hnk' { e with Msg := v } h he
    | ref v => exact ih hnk' { e with Ref := v } h he
    | err t => exact ih hnk' { e with Err := error.foreign t } h he
    | errPanic => exact ih hnk' { e with Err := error.foreignPanic } h he
    | errorPtr p =>
      simp only [List.cons_append, E.loop]
      cases deref h p with
      | none => rfl
      | some cp => exact ih hnk' { e with Err := error.record (some h.length) } (h ++ [cp]) he
    | other ty v => rfl

/-- C14, amended: for every non-empty fragment list without a `Kind` fragment, `E` has
the same outcome, returned record and heap included, when the fragment `Other` is
inserted at any position, hence the same rendering; the kind slot writes nothing for
`Other`, and no text it writes for another kind is `unknown error`. -/
theorem C14_insert_Other (h : Heap) (pre post : List Arg)
    (hnk : ∀ a ∈ pre ++ post, a.asKind = none) (hne : pre ++ post ≠ []) :
    E h (pre ++ Arg.kind Kind.Other :: post) = E h (pre ++ post) ∧
    (∀ n : Nat, Error.Error h n { Kind := Kind.Other } = some "") ∧
    (∀ k : Kind, k ≠ Kind.Other → Kind.String k ≠ "unknown error") := by
  refine ⟨?_, fun n => ?_, fun k hk => ?_⟩
  · have h1 : (pre ++ Arg.kind Kind.Other :: post).length ≠ 0 := by simp
    have h2 : (pre ++ post).length ≠ 0 := fun h0 => hne (List.length_eq_zero.1 h0)
    rw [E, E, if_neg h1, if_neg h2]
    exact E_loop_insert_Other pre post (fun a ha => hnk a (List.mem_append_left _ ha)) {} h rfl
  · rw [Error_of_nil h n _ rfl]
    rfl
  · have hk0 : ¬ k = 0 := hk
    unfold Kind.String
    rw [if_neg hk0]
    repeat' apply ite_ne
    all_goals decide

theorem C14_insert_Other_witness :
    E [{ Msg := "inner" }] ([Arg.op "open"] ++ Arg.kind Kind.Other :: [Arg.errorPtr (some 0)])
      = E [{ Msg := "inner" }] ([Arg.op "open"] ++ [Arg.errorPtr (some 0)]) ∧
    E [{ Msg := "inner" }] ([Arg.op "open"] ++ [Arg.errorPtr (some 0)])
      = Outcome.ret [{ Msg := "inner" }, { Msg := "inner" },
          { Op := "open", Err := error.record (some 1) }] (error.record (some 2)) ∧
    error.Error [{ Msg := "inner" }, { Msg := "inner" },
      { Op := "open", Err := error.record (some 1) }] 1 (error.record (some 2))
      = some "open|inner" :=
  ⟨(C14_insert_Other [{ Msg := "inner" }] [Arg.op "open"] [Arg.errorPtr (some 0)]
      (by decide) (by decide)).1, by decide, by decide⟩

/-! ## Rendering of the record `E` returns -/

/-- The state-passing form of `Error()` returns what the functional form returns, and
the heap it was called in. -/
theorem ErrorSt_eq (h : Heap) : ∀ (n : Nat) (p : Option Addr),
    Error.ErrorSt h n p = (error.Error h n (error.record p)).map (fun s => (s, h)) := by
  intro n
  induction n with
  | zero =>
    intro p
    rw [Error.ErrorSt, error.Error]
    cases hd : deref h p with
    | none => rfl
    | some e =>
      simp only
      rw [Error.Error]
      cases hE : e.Err <;> rfl
  | succ k ih =>
    intro p
    rw [Error.ErrorSt, error.Error]
    cases hd : deref h p with
    | none => rfl
    | some e =>
      simp only
      rw [Error.Error]
      cases hE : e.Err with
      | nil => rfl
      | foreign t => rfl
      | foreignPanic => rfl
      | record q =>
        simp only [ih q, error.Error]
        cases hq : deref h q with
        | none => rfl
        | some c =>
          simp only
          cases hc : Error.Error h k c <;> rfl

theorem Renders_append {h : Heap} {e : Error} (l : List Error) (hr : Renders h e) :
    Renders (h ++ l) e := by
  obtain ⟨n, s, hs⟩ := hr
  exact ⟨n, s, Error_append h l n e s hs⟩

theorem Renders_of_wrapped {h : Heap} {e x : Error} {p : Option Addr}
    (hErr : e.Err = error.record p) (hd : deref h p = some x) (hx : Renders h x) :
    Renders h e := by
  obtain ⟨n, s, hs⟩ := hx
  exact ⟨n + 1, _, (Error_record_some hErr).2 ⟨n, x, s, rfl, hd, hs, rfl⟩⟩

/-- Whether a record renders depends on its wrapped cause alone. -/
theorem Renders_congr {h : Heap} (e₁ e₂ : Error) (hErr : e₂.Err = e₁.Err)
    (hr : Renders h e₁) : Renders h e₂ := by
  cases hE : e₁.Err with
  | nil =>
    exact ⟨0, _, Error_of_nil h 0 e₂ (hErr.trans hE)⟩
  | foreign t =>
    refine ⟨0, writeAll "" (ownSlots e₂ ++ [t]), ?_⟩
    rw [Error_eq, hErr.trans hE]
  | foreignPanic =>
    obtain ⟨n, s, hs⟩ := hr
    rw [Error_eq, hE] at hs
    exact Option.noConfusion hs
  | record p =>
    obtain ⟨n, s, hs⟩ := hr
    obtain ⟨k, e', s', _, hd, hs', _⟩ := (Error_record_some hE).1 hs
    exact Renders_of_wrapped (hErr.trans hE) hd ⟨k, s', hs'⟩

/-- The record the loop of `E` returns renders when its wrapped cause does: when the
last error-like fragment is not a foreign error whose `Error()` panics, and is, if a
`*Error`, a pointer to a record that renders. -/
theorem E_loop_renders (h₀ : Heap) (args : List Arg) :
    lastErrorLike args ≠ some Arg.errPanic →
    (∀ p, lastErrorLike args = some (Arg.errorPtr p) →
      ∃ X, deref h₀ p = some X ∧ Renders h₀ X) →
    ∀ (e : Error) (l : List Error), (lastErrorLike args = none → Renders (h₀ ++ l) e) →
      ∀ (h' : Heap) (a : Addr),
        E.loop e (h₀ ++ l) args = Outcome.ret h' (error.record (some a)) →
        ∃ e', h'[a]? = some e' ∧ Renders h' e' := by
  induction args with
  | nil =>
    intro _ _ e l he h' a hE
    simp only [E.loop, Outcome.ret.injEq, error.record.injEq, Option.some.injEq] at hE
    rw [← hE.1, ← hE.2]
    exact ⟨e, List.getElem?_concat_length _ _, Renders_append [e] (he rfl)⟩
  | cons x rest ih =>
    intro hfp hptr e l he h' a hE
    by_cases hx : x.isErrorLike = true
    · have hyes := lastErrorLike_cons_of x rest hx
      have hfp' : lastErrorLike rest ≠ some Arg.errPanic := by
        intro hr
        exact hfp (by rw [hyes, hr]; rfl)
      have hptr' : ∀ p, lastErrorLike rest = some (Arg.errorPtr p) →
          ∃ X, deref h₀ p = some X ∧ Renders h₀ X := by
        intro p hr
        exact hptr p (by rw [hyes, hr]; rfl)
      cases x with
      | path v => exact Bool.noConfusion hx
      | op v => exact Bool.noConfusion hx
      | kind v => exact Bool.noConfusion hx
      | str v => exact Bool.noConfusion hx
      | ref v => exact Bool.noConfusion hx
      | other ty v => exact Bool.noConfusion hx
      | err t =>
        refine ih hfp' hptr' { e with Err := error.foreign t } l (fun _ => ?_) h' a hE
        refine ⟨0, writeAll "" (ownSlots { e with Err := error.foreign t } ++ [t]), ?_⟩
        rw [Error_eq]
      | errPanic =>
        refine ih hfp' hptr' { e with Err := error.foreignPanic } l (fun hn => ?_) h' a hE
        exact absurd (by rw [hyes, hn]; rfl) hfp
      | errorPtr p =>
        rw [E.loop] at hE
        cases hd : deref (h₀ ++ l) p with
        | none =>
          rw [hd] at hE
          exact Outcome.noConfusion hE
        | some cp =>
          simp only [hd] at hE
          have hassoc : h₀ ++ l ++ [cp] = h₀ ++ (l ++ [cp]) := by simp
          rw [hassoc] at hE
          refine ih hfp' hptr' _ (l ++ [cp]) (fun hn => ?_) h' a hE
          obtain ⟨X, hX, hXr⟩ := hptr p (by rw [hyes, hn]; rfl)
          have hcp : cp = X := by
            rw [deref_append l hX] at hd
            exact (Option.some.inj hd).symm
          have hd' : deref (h₀ ++ (l ++ [cp])) (some (h₀ ++ l).length) = some cp := by
            rw [← hassoc]
            simp only [deref, Option.some_bind]
            exact List.getElem?_concat_length _ _
          refine Renders_of_wrapped rfl hd' ?_
          rw [hcp]
          exact Renders_append (l ++ [X]) hXr
    · have hx' : x.isErrorLike = false := by
        cases hb : x.isErrorLike with
        | true => exact absurd hb hx
        | false => rfl
      have hnot := lastErrorLike_cons_of_not x rest hx'
      rw [hnot] at hfp hptr he
      cases x with
      | path v =>
        exact ih hfp hptr { e with Path := v } l (fun hn => Renders_congr e _ rfl (he hn)) h' a hE
      | op v =>
        exact ih hfp hptr { e with Op := v } l (fun hn => Renders_congr e _ rfl (he hn)) h' a hE
      | kind v =>
        exact ih hfp hptr { e with Kind := v } l (fun hn => Renders_congr e _ rfl (he hn)) h' a hE
      | str v =>
        exact ih hfp hptr { e with Msg := v } l (fun hn => Renders_congr e _ rfl (he hn)) h' a hE
      | ref v =>
        exact ih hfp hptr { e with Ref := v } l (fun hn => Renders_congr e _ rfl (he hn)) h' a hE
      | err t => exact Bool.noConfusion hx'
      | errPanic => exact Bool.noConfusion hx'
      | errorPtr p => exact Bool.noConfusion hx'
      | other ty v =>
        simp only [E.loop, Outcome.ret.injEq] at hE
        exact error.noConfusion hE.2

/-- From the empty heap, `E` called with a foreign error whose own `Error()` panics (a
nil pointer of a foreign type, a non-nil `error`) stores it in `Err` and returns a
record; `Error()` on this record never returns a string, whatever the fuel: the call
`e.Err.Error()` panics.  Wrapping this record by a second call of `E` gives a record on
which `Error()` never returns either. -/
theorem C15_counterexample :
    E [] [Arg.errPanic]
      = Outcome.ret [{ Err := error.foreignPanic }] (error.record (some 0)) ∧
    (∀ n : Nat, error.Error [{ Err := error.foreignPanic }] n (error.record (some 0)) = none) ∧
    (∀ n : Nat, Error.ErrorSt [{ Err := error.foreignPanic }] n (some 0) = none) ∧
    E [{ Err := error.foreignPanic }] [Arg.op "open", Arg.errorPtr (some 0)]
      = Outcome.ret [{ Err := error.foreignPanic }, { Err := error.foreignPanic },
          { Op := "open", Err := error.record (some 1) }] (error.record (some 2)) ∧
    (∀ n : Nat, error.Error [{ Err := error.foreignPanic }, { Err := error.foreignPanic },
        { Op := "open", Err := error.record (some 1) }] n (error.record (some 2)) = none) := by
  have hX : ∀ (h : Heap) (n : Nat), Error.Error h n { Err := error.foreignPanic } = none := by
    intro h n
    rw [Error_eq]
  have hnone : ∀ n : Nat,
      error.Error [{ Err := error.foreignPanic }] n (error.record (some 0)) = none := by
    intro n
    have h0 : ([{ Err := error.foreignPanic }] : Heap)[0]? = some { Err := error.foreignPanic } :=
      rfl
    rw [error_Error_record n h0, hX]
  refine ⟨by decide, hnone, fun n => ?_, by decide, fun n => ?_⟩
  · rw [ErrorSt_eq, hnone n]
    rfl
  · have h2 : ([{ Err := error.foreignPanic }, { Err := error.foreignPanic },
        { Op := "open", Err := error.record (some 1) }] : Heap)[2]?
        = some { Op := "open", Err := error.record (some 1) } := rfl
    rw [error_Error_record n h2, Error_eq]
    cases n with
    | zero => rfl
    | succ k =>
      have hd : deref [{ Err := error.foreignPanic }, { Err := error.foreignPanic },
          { Op := "open", Err := error.record (some 1) }] (some 1)
          = some { Err := error.foreignPanic } := rfl
      simp only [hd, hX, Option.map_none']

/-- C15, amended: let `E` return a record whose wrapped cause, if there is one, is a
foreign error whose own `Error()` returns a text and changes no record, or the copy of
an error record that renders (its chain is finite and reaches no foreign error whose
`Error()` panics).  Then there is a string `s` such that, for every sufficient fuel,
`Error()` on the returned record returns `s` and leaves the heap as it was: the six
fields of every record, those of the wrapped chain included, are unchanged, and a
further call, made in this same heap, returns `s` again. -/
theorem C15_returned_record_renders (h : Heap) (args : List Arg) (h' : Heap) (a : Addr)
    (hE : E h args = Outcome.ret h' (error.record (some a)))
    (hfp : lastErrorLike args ≠ some Arg.errPanic)
    (hptr : ∀ p, lastErrorLike args = some (Arg.errorPtr p) →
      ∃ X, deref h p = some X ∧ Renders h X) :
    ∃ (n : Nat) (s : String), ∀ m : Nat, n ≤ m →
      error.Error h' m (error.record (some a)) = some s ∧
      Error.ErrorSt h' m (some a) = some (s, h') := by
  obtain ⟨e, he, n, s, hs⟩ : ∃ e, h'[a]? = some e ∧ Renders h' e := by
    unfold E at hE
    split at hE
    · exact Outcome.noConfusion hE
    · have hE' : E.loop {} (h ++ []) args = Outcome.ret h' (error.record (some a)) := by
        rw [List.append_nil]
        exact hE
      exact E_loop_renders h args hfp hptr {} []
        (fun _ => ⟨0, _, Error_of_nil (h ++ []) 0 {} rfl⟩) h' a hE'
  refine ⟨n, s, fun m hm => ?_⟩
  have hm' : error.Error h' m (error.record (some a)) = some s := by
    rw [error_Error_record m he]
    exact Error_fuel_mono h' n e s m hs hm
  refine ⟨hm', ?_⟩
  rw [ErrorSt_eq, hm']
  rfl

theorem C15_returned_record_renders_witness :
    E [{ Msg := "inner", Err := error.foreign "EOF" }] [Arg.op "open", Arg.errorPtr (some 0)]
      = Outcome.ret [{ Msg := "inner", Err := error.foreign "EOF" },
          { Msg := "inner", Err := error.foreign "EOF" },
          { Op := "open", Err := error.record (some 1) }] (error.record (some 2)) ∧
    Error.ErrorSt [{ Msg := "inner", Err := error.foreign "EOF" },
        { Msg := "inner", Err := error.foreign "EOF" },
        { Op := "open", Err := error.record (some 1) }] 1 (some 2)
      = some ("open|inner|EOF", [{ Msg := "inner", Err := error.foreign "EOF" },
          { Msg := "inner", Err := error.foreign "EOF" },
          { Op := "open", Err := error.record (some 1) }]) ∧
    ∃ (n : Nat) (s : String), ∀ m : Nat, n ≤ m →
      error.Error [{ Msg := "inner", Err := error.foreign "EOF" },
          { Msg := "inner", Err := error.foreign "EOF" },
          { Op := "open", Err := error.record (some 1) }] m (error.record (some 2)) = some s ∧
      Error.ErrorSt [{ Msg := "inner", Err := error.foreign "EOF" },
          { Msg := "inner", Err := error.foreign "EOF" },
          { Op := "open", Err := error.record (some 1) }] m (some 2)
        = some (s, [{ Msg := "inner", Err := error.foreign "EOF" },
          { Msg := "inner", Err := error.foreign "EOF" },
          { Op := "open", Err := error.record (some 1) }]) :=
  ⟨by decide, by decide,
    C15_returned_record_renders [{ Msg := "inner", Err := error.foreign "EOF" }]
      [Arg.op "open", Arg.errorPtr (some 0)]
      [{ Msg := "inner", Err := error.foreign "EOF" },
        { Msg := "inner", Err := error.foreign "EOF" },
        { Op := "open", Err := error.record (some 1) }] 2 (by decide) (by decide)
      (fun p hp => by
        have hp' : p = some 0 := by
          have hl : lastErrorLike [Arg.op "open", Arg.errorPtr (some 0)]
              = some (Arg.errorPtr (some 0)) := by decide
          rw [hl] at hp
          exact (Arg.errorPtr.inj (Option.some.inj hp)).symm
        rw [hp']
        exact ⟨{ Msg := "inner", Err := error.foreign "EOF" }, rfl, 0, "inner|EOF",
          by decide⟩)⟩

end errors
